import Mathlib

/-!
Shallow embedding of the Fleet Deployment & Map-Fit Validation Engine of the
Battleship repository (source: `run.py`), together with theorems settling the
frozen claims about it.

Conventions of the embedding:
* a Python 2D map (`List[List[str]]`) becomes `Grid := List (List String)`;
* a raised exception becomes `none` / an explicit failure constructor, since
  every exception inside placement or deployment is caught by the
  `except Exception` handler of `cpu_deploy_all_ships` and turned into the
  result value `False`;
* `random.choice` becomes consumption of one element of an explicit stream of
  natural numbers (`List Nat`); an element `k` selects index `k % length`,
  so every concrete run of the Python code corresponds to some stream;
* in-place mutation of the grid and of the fleet's ship objects becomes
  explicit state passing: functions return the updated grid / fleet.
-/

namespace Battleship

/-- A cell of the game map holds a Python string. -/
abbrev Cell := String

/-- The 2D game map: a list of rows of cell strings. -/
abbrev Grid := List (List Cell)

/-- A 0-indexed (row, column) pair. -/
abbrev Coord := Nat × Nat

/-! ### Symbol tables (`DEFAULT_COLORS`, `DEFAULT_SHIP_SYMBOLS` in `run.py`) -/

def colorDarkYellow : String := "\x1b[33m"
def colorDarkBlue : String := "\x1b[34m"
def colorDarkGreen : String := "\x1b[32m"
def colorDarkRed : String := "\x1b[31m"
def colorReset : String := "\x1b[0m"

/-- The ANSI escape character; every rendered ship cell contains it. -/
def escChar : Char := '\x1b'

def symSingle : String := "◆"
def symHorizontalFirst : String := "◀"
def symHorizontalRest : String := "▤"
def symVerticalFirst : String := "▲"
def symVerticalRest : String := "▥"

/-- `DEFAULT_SHIP_SYMBOLS.get(key, ["default_symbol"])` of `run.py`:
the list of base glyphs for a ship of the given alignment. -/
def alignSymbols : Option String → List String
  | some "Single" => [symSingle]
  | some "Horizontal" => [symHorizontalFirst, symHorizontalRest]
  | some "Vertical" => [symVerticalFirst, symVerticalRest]
  | _ => ["default_symbol"]

/-! ### Ship and Fleet (`class Ship`, `class Fleet`, `create_fleet`) -/

/-- The mutable state of a `Ship` object. -/
structure Ship where
  name : String
  size : Nat
  cell_coordinates : List Coord
  sunk : Bool
  color : Option String
  alignment : Option String
  deployed : Bool
  deriving DecidableEq, Repr

/-- `Ship.__init__`: a freshly constructed ship.  A size-1 ship starts with
alignment `Single` and the dark-yellow color. -/
def Ship.create (name : String) (size : Nat) : Ship :=
  { name := name
    size := size
    cell_coordinates := []
    sunk := false
    color := if size = 1 then some colorDarkYellow else none
    alignment := if size = 1 then some "Single" else none
    deployed := false }

/-- `Ship.set_alignment`: store the alignment and recolor for
Horizontal/Vertical; any other alignment keeps the current color. -/
def set_alignment (s : Ship) (al : String) : Ship :=
  { s with
    alignment := some al
    color :=
      if al = "Horizontal" then some colorDarkBlue
      else if al = "Vertical" then some colorDarkGreen
      else s.color }

/-- `Ship.get_symbols`: the list of colored cell strings for the ship, one per
cell, or `none` when the Python code would raise `IndexError` (a one-glyph
symbol table combined with `size >= 2`). -/
def get_symbols (ship : Ship) : Option (List Cell) :=
  let color :=
    if ship.sunk then colorDarkRed
    else ship.color.getD "default_fallback_color"
  let symbols := alignSymbols ship.alignment
  if 2 ≤ ship.size ∧ symbols.length < 2 then none
  else
    some ((List.range ship.size).map fun i =>
      color ++ (if i = 0 then symbols.headD "" else symbols.getD 1 "") ++ colorReset)

/-- A fleet is the list of its ship objects (`Fleet.ships`). -/
abbrev Fleet := List Ship

/-- `create_fleet(fleet)` with a fleet argument: read each ship's name and
size off the given fleet and build a fresh all-undeployed clone. -/
def create_fleet (fleet : Fleet) : Fleet :=
  fleet.map fun s => Ship.create s.name s.size

/-- `Fleet.get_biggest_ship_by_deployed_status(False)`, together with the
index of the returned ship object inside the list.  Python `max` keeps the
first element among ties, replacing the current best only on a strictly
larger key. -/
def select_biggest_undeployed (fleet : Fleet) : Option (Nat × Ship) :=
  match fleet.enum.filter (fun p => p.2.deployed = false) with
  | [] => none
  | x :: xs => some (xs.foldl (fun best y => if y.2.size > best.2.size then y else best) x)

/-! ### Grid primitives -/

/-- `create_map`: a `height × width` grid filled with `symbol`. -/
def create_map (height width : Nat) (symbol : Cell) : Grid :=
  List.replicate height (List.replicate width symbol)

/-- Read the cell at (r, c); `none` when out of bounds (Python `IndexError`). -/
def getCell (g : Grid) (r c : Nat) : Option Cell :=
  g[r]?.bind fun row => row[c]?

/-- Bounds-checked in-place write `map[r][c] = s`; `none` models the
`IndexError` Python would raise. -/
def setCell (g : Grid) (r c : Nat) (s : Cell) : Option Grid :=
  g[r]?.bind fun row => row[c]?.map fun _ => g.set r (row.set c s)

/-- A well-formed `height × width` grid: the shape every grid of the data
model has (`create_map` output, mutated only cell-wise). -/
def Rect (h w : Nat) (g : Grid) : Prop :=
  g.length = h ∧ ∀ row ∈ g, row.length = w

instance (h w : Nat) (g : Grid) : Decidable (Rect h w g) := by
  unfold Rect; infer_instance

/-- Python `range(n)` where `n` may be computed as a negative int:
`pyRangeLen m k` models `range(m - k + 1)` over ints. -/
def pyRangeLen (m k : Nat) : List Nat :=
  if k ≤ m then List.range (m - k + 1) else []

/-! ### `search_pattern` -/

/-- The inner generator of `search_pattern`'s `all(...)`: check the cells of
the `height × width` block anchored at (row, col), left to right, top to
bottom, stopping at the first mismatch.  `pattern[i][j]` in Python indexes a
*character* of the string `symbol_to_search * width`; `patRow` is that
character list.  `none` models an exception raised while evaluating the
generator (cell access or pattern index out of range). -/
def checkBlock (g : Grid) (patRow : List Char) (row col : Nat) :
    List (Nat × Nat) → Option Bool
  | [] => some true
  | (i, j) :: rest =>
    match getCell g (row + i) (col + j) with
    | none => none
    | some cell =>
      match patRow[j]? with
      | none => none
      | some pch =>
        if cell = String.mk [pch] then checkBlock g patRow row col rest
        else some false

/-- The (i, j) enumeration order of the block generator. -/
def blockIdxs (height width : Nat) : List (Nat × Nat) :=
  (List.range height).flatMap fun i => (List.range width).map fun j => (i, j)

/-- The row-major anchor enumeration of `search_pattern`'s two nested
loops, `range(map_height - height + 1)` by `range(map_width - width + 1)`. -/
def searchAnchors (mapH mapW height width : Nat) : List Coord :=
  (pyRangeLen mapH height).flatMap fun row =>
    (pyRangeLen mapW width).map fun col => (row, col)

/-- The scan of `search_pattern` over the anchor list: keep the anchors
whose block matches, abort with `none` as soon as evaluating a block check
raises. -/
def searchScan (g : Grid) (patRow : List Char) (height width : Nat) :
    List Coord → Option (List Coord)
  | [] => some []
  | rc :: rest =>
    match checkBlock g patRow rc.1 rc.2 (blockIdxs height width) with
    | none => none
    | some b =>
      match searchScan g patRow height width rest with
      | none => none
      | some tail => some (if b then rc :: tail else tail)

/-- `search_pattern(map_game, height, width, symbol_to_search)`: every
top-left anchor of a `height × width` block whose cells match the tiled
symbol pattern, in row-major order.  `none` models a raised exception
(empty grid, ragged row, or a pattern row shorter than `width`). -/
def search_pattern (g : Grid) (height width : Nat) (symbol : Cell) :
    Option (List Coord) :=
  match g.head? with
  | none => none
  | some row0 =>
    let patRow : List Char := (List.replicate width symbol.data).flatten
    searchScan g patRow height width
      (searchAnchors g.length row0.length height width)

/-! ### Randomness

Each `random.choice(xs)` consumes one element `k` of an explicit stream and
selects index `k % len(xs)`; an exhausted stream selects index 0.  Every
concrete sequence of choices of a Python run is realized by some stream. -/

/-- Draw one index below `n` from the stream. -/
def randPick (n : Nat) (rs : List Nat) : Nat × List Nat :=
  match rs with
  | [] => (0, [])
  | k :: rest => (k % n, rest)

/-! ### Single-ship placement -/

/-- `create_coordinate_list(row, column, alignment, ship_size)`. -/
def create_coordinate_list (row column : Nat) (alignment : String)
    (ship_size : Nat) : List Coord :=
  if ship_size = 1 then [(row, column)]
  else
    (if alignment = "Horizontal" then
      (List.range ship_size).map fun cell => (row, column + cell)
    else []) ++
    (if alignment = "Vertical" then
      (List.range ship_size).map fun cell => (row + cell, column)
    else [])

/-- Outcome of `cpu_deploy_get_coordinates` / `cpu_deploy_single_ship`:
a raised exception (`exc`), the value `False` (`fls`), or an
(alignment, coordinate list) pair. -/
inductive PlaceRes where
  | exc : PlaceRes
  | fls : PlaceRes
  | ok : String → List Coord → PlaceRes
  deriving DecidableEq, Repr

/-- `cpu_deploy_get_coordinates(map_game, ship_size, symbol)`.  For sizes
other than 1 the first alignment to try is drawn at random
(`random.choice(["Vertical", "Horizontal"])`, index 0 = Vertical) before any
search runs. -/
def cpu_deploy_get_coordinates (g : Grid) (ship_size : Nat) (symbol : Cell)
    (rs : List Nat) : PlaceRes × List Nat :=
  if ship_size = 1 then
    match search_pattern g 1 1 symbol with
    | none => (.exc, rs)
    | some [] => (.fls, rs)
    | some (c :: cs) => (.ok "Single" (c :: cs), rs)
  else
    let (k, rs1) := randPick 2 rs
    let first := if k = 0 then "Vertical" else "Horizontal"
    let second := if k = 0 then "Horizontal" else "Vertical"
    match search_pattern g (if first = "Horizontal" then 1 else ship_size)
        (if first = "Vertical" then 1 else ship_size) symbol with
    | none => (.exc, rs1)
    | some (c :: cs) => (.ok first (c :: cs), rs1)
    | some [] =>
      match search_pattern g (if second = "Horizontal" then 1 else ship_size)
          (if second = "Vertical" then 1 else ship_size) symbol with
      | none => (.exc, rs1)
      | some (c :: cs) => (.ok second (c :: cs), rs1)
      | some [] => (.fls, rs1)

/-- `cpu_deploy_single_ship(map_game, ship_size, symbol)`: pick a random
anchor among the candidates and expand it into the full coordinate list. -/
def cpu_deploy_single_ship (g : Grid) (ship_size : Nat) (symbol : Cell)
    (rs : List Nat) : PlaceRes × List Nat :=
  match cpu_deploy_get_coordinates g ship_size symbol rs with
  | (.exc, rs') => (.exc, rs')
  | (.fls, rs') => (.fls, rs')
  | (.ok alignment coordinate_list, rs') =>
    let (j, rs'') := randPick coordinate_list.length rs'
    match coordinate_list[j]? with
    | none => (.exc, rs'')
    | some location =>
      (.ok alignment
        (create_coordinate_list location.1 location.2 alignment ship_size), rs'')

/-! ### Grid mutation passes -/

/-- `map_show_symbols`: write `symbols_list[i]` at `coordinates_list[i]` in
order.  The `Bool` is `false` when Python would raise (symbol list exhausted
or write out of bounds); the grid then holds the writes already made. -/
def map_show_symbols (g : Grid) : List Coord → List Cell → Grid × Bool
  | [], _ => (g, true)
  | _ :: _, [] => (g, false)
  | p :: coords, s :: syms =>
    match setCell g p.1 p.2 s with
    | none => (g, false)
    | some g' => map_show_symbols g' coords syms

/-- The nine relative offsets of `map_allocate_empty_space_for_ship`, in
source order. -/
def blank_space : List (Int × Int) :=
  [(-1, -1), (-1, 0), (-1, 1), (0, -1), (0, 0), (0, 1), (1, -1), (1, 0), (1, 1)]

/-- The write loop of `map_allocate_empty_space_for_ship`: for each candidate
position, write `symbol` when `0 <= row < len(map)` and
`0 <= col < len(map[0])`.  The `Bool` is `false` when a checked write still
raises (a ragged row shorter than row 0). -/
def bufferWrites (symbol : Cell) : Grid → List (Int × Int) → Grid × Bool
  | g, [] => (g, true)
  | g, (br, bc) :: rest =>
    if 0 ≤ br ∧ br < (g.length : Int) ∧ 0 ≤ bc ∧
        bc < ((g.head?.getD []).length : Int) then
      match setCell g br.toNat bc.toNat symbol with
      | none => (g, false)
      | some g' => bufferWrites symbol g' rest
    else bufferWrites symbol g rest

/-- `map_allocate_empty_space_for_ship(map_game, coordinates_list, symbol)`:
compute all nine offsets of every ship cell (offset-major order, matching the
source's nested loops) and write `symbol` at each in-bounds one. -/
def map_allocate_empty_space_for_ship (g : Grid) (coordinates_list : List Coord)
    (symbol : Cell) : Grid × Bool :=
  let blanks : List (Int × Int) :=
    blank_space.flatMap fun off =>
      coordinates_list.map fun coord =>
        (off.1 + (coord.1 : Int), off.2 + (coord.2 : Int))
  bufferWrites symbol g blanks

/-- `map_show_only_ships(map, symbol_to_remove, default_symbol)`: replace
every cell equal to `symbol_to_remove` by `default_symbol`, scanning the
first `len(map[0])` columns of every row. -/
def map_show_only_ships (g : Grid) (symbol_to_remove default_symbol : Cell) :
    Grid :=
  let w := (g.head?.getD []).length
  g.map fun row =>
    (row.enum).map fun jc =>
      if jc.1 < w ∧ jc.2 = symbol_to_remove then default_symbol else jc.2

/-! ### The fleet deployment loop (`cpu_deploy_all_ships`) -/

/-- The in-place mutations committed on a ship by a successful placement:
`set_cell_coordinates`, `set_alignment`, `deployed = True`. -/
def deployShip (ship : Ship) (alignment : String) (coords : List Coord) : Ship :=
  { set_alignment ship alignment with
    cell_coordinates := coords
    deployed := true }

/-- Number of not-yet-deployed ships; the loop measure. -/
def undeployedCount (fleet : Fleet) : Nat :=
  (fleet.filter fun s => s.deployed = false).length

/-- Result of one run of `cpu_deploy_all_ships`: `out` is fuel exhaustion
(proved unreachable for fuel above `undeployedCount`), `fail` is the Python
return value `False` (also covering every caught exception), `ok` is a
returned grid.  `fail` and `ok` carry the final states of the grid and fleet
objects, which the Python code mutates in place. -/
inductive LoopRes where
  | out : LoopRes
  | fail : Grid → Fleet → LoopRes
  | ok : Grid → Fleet → LoopRes
  deriving DecidableEq, Repr

def LoopRes.isOk : LoopRes → Bool
  | .ok _ _ => true
  | _ => false

def LoopRes.isOut : LoopRes → Bool
  | .out => true
  | _ => false

/-- Grid of a successful run (`[]` otherwise). -/
def LoopRes.okGrid : LoopRes → Grid
  | .ok g _ => g
  | _ => []

/-- Fleet of a successful run (`[]` otherwise). -/
def LoopRes.okFleet : LoopRes → Fleet
  | .ok _ f => f
  | _ => []

/-- One run of `cpu_deploy_all_ships(map_game, fleet, gaps, symbol)`:
repeatedly select the biggest undeployed ship, place it, commit the ship
mutations, run the buffer pass when `gaps` is set, draw the ship symbols,
and on completion clear the buffer marks ("x") back to `symbol`. -/
def cpu_deploy_all_ships (fuel : Nat) (g : Grid) (fleet : Fleet) (gaps : Bool)
    (symbol : Cell) (rs : List Nat) : LoopRes × List Nat :=
  match fuel with
  | 0 => (.out, rs)
  | fuel + 1 =>
    match select_biggest_undeployed fleet with
    | none => (.ok (map_show_only_ships g "x" symbol) fleet, rs)
    | some (i, ship) =>
      match cpu_deploy_single_ship g ship.size symbol rs with
      | (.exc, rs') => (.fail g fleet, rs')
      | (.fls, rs') => (.fail g fleet, rs')
      | (.ok alignment coords, rs') =>
        match get_symbols (deployShip ship alignment coords) with
        | none => (.fail g (fleet.set i (deployShip ship alignment coords)), rs')
        | some symbols_list =>
          match
            (if gaps then map_allocate_empty_space_for_ship g coords "x"
             else (g, true)) with
          | (gb, false) =>
            (.fail gb (fleet.set i (deployShip ship alignment coords)), rs')
          | (gb, true) =>
            match map_show_symbols gb coords symbols_list with
            | (g1, false) =>
              (.fail g1 (fleet.set i (deployShip ship alignment coords)), rs')
            | (g1, true) =>
              cpu_deploy_all_ships fuel g1
                (fleet.set i (deployShip ship alignment coords)) gaps symbol rs'

/-- Enough fuel for any run on this fleet: one loop iteration per ship plus
the terminating iteration. -/
def fuelFor (fleet : Fleet) : Nat := fleet.length + 1

/-! ### The feasibility oracle (`check_fleet_fits_map`) -/

/-- A dead attempt of the oracle: once the loop variable `map_game` holds
`False`, `cpu_deploy_all_ships(False, ...)` raises inside and returns
`False`; the only observable effect is one random draw when the biggest
ship of the fresh fleet clone has size ≥ 2 (the alignment is drawn before
the search touches the map). -/
def deployOnFalse (fleet : Fleet) (rs : List Nat) : List Nat :=
  match select_biggest_undeployed fleet with
  | none => rs
  | some (_, ship) => if ship.size = 1 then rs else (randPick 2 rs).2

/-- The retry loop of `check_fleet_fits_map`.  The `Option Grid` argument is
the current value of its `map_game` variable: the caller's grid object on
entry, `False` (= `none`) after any failed attempt, since the code assigns
the attempt's result back to `map_game` and never builds a fresh grid. -/
def oracleLoop : Nat → Option Grid → Fleet → Cell → Bool → List Nat →
    Option Grid
  | 0, _, _, _, _, _ => none
  | n + 1, mg, fleet_config, symbol, gaps, rs =>
    let tmp_fleet := create_fleet fleet_config
    match mg with
    | none => oracleLoop n none fleet_config symbol gaps (deployOnFalse tmp_fleet rs)
    | some tmp_map =>
      match cpu_deploy_all_ships (fuelFor tmp_fleet) tmp_map tmp_fleet gaps symbol rs with
      | (.ok g' _, _) => some g'
      | (.fail _ _, rs') => oracleLoop n none fleet_config symbol gaps rs'
      | (.out, _) => none

/-- `check_fleet_fits_map(map_game, fleet_config, symbol, gaps)`: run up to
50 attempts and return the first successful grid, `none` for `False`. -/
def check_fleet_fits_map (map_game : Grid) (fleet_config : Fleet)
    (symbol : Cell) (gaps : Bool) (rs : List Nat) : Option Grid :=
  oracleLoop 50 (some map_game) fleet_config symbol gaps rs

/-- State of the caller's grid *object* after `check_fleet_fits_map`
returns.  The source aliases it (`tmp_map = map_game`) and
`cpu_deploy_all_ships` mutates it in place, so after the call the object
holds the final grid of the first attempt — the attempts after a failure
operate on `False` and never touch it again. -/
def check_fleet_fits_map_grid_after (map_game : Grid) (fleet_config : Fleet)
    (symbol : Cell) (gaps : Bool) (rs : List Nat) : Grid :=
  match cpu_deploy_all_ships (fuelFor (create_fleet fleet_config)) map_game
      (create_fleet fleet_config) gaps symbol rs with
  | (.ok g' _, _) => g'
  | (.fail g' _, _) => g'
  | (.out, _) => map_game

/-! ## Specification-side predicates

These predicates state, in the spec's vocabulary, the properties the claims
assert about the code; the theorems below relate them to the embedded
functions. -/

/-- Two coordinates are equal or 8-adjacent (their rows and columns each
differ by at most one). -/
def near (p q : Coord) : Prop :=
  ((p.1 : Int) - q.1).natAbs ≤ 1 ∧ ((p.2 : Int) - q.2).natAbs ≤ 1

instance (p q : Coord) : Decidable (near p q) := by unfold near; infer_instance

/-- Two distinct coordinates that are 8-adjacent (edge- or corner-adjacent,
including diagonals). -/
def adjacent8 (p q : Coord) : Prop := p ≠ q ∧ near p q

instance (p q : Coord) : Decidable (adjacent8 p q) := by
  unfold adjacent8; infer_instance

/-- (r, c) lies in the closed 8-neighborhood of some ship cell. -/
def nearShip (coords : List Coord) (r c : Nat) : Prop :=
  ∃ p ∈ coords, near (r, c) p

instance (coords : List Coord) (r c : Nat) : Decidable (nearShip coords r c) := by
  unfold nearShip; infer_instance

/-- The coordinate sets of the two ships are disjoint. -/
def ShipsDisjoint (s t : Ship) : Prop :=
  ∀ p ∈ s.cell_coordinates, p ∉ t.cell_coordinates

instance (s t : Ship) : Decidable (ShipsDisjoint s t) := by
  unfold ShipsDisjoint; infer_instance

/-- No coordinate of one ship is 8-adjacent to a coordinate of the other. -/
def ShipsNotAdjacent (s t : Ship) : Prop :=
  ∀ p ∈ s.cell_coordinates, ∀ q ∈ t.cell_coordinates, ¬ adjacent8 p q

instance (s t : Ship) : Decidable (ShipsNotAdjacent s t) := by
  unfold ShipsNotAdjacent; infer_instance

/-- Every ship of the fleet is still undeployed — the state of every fleet
`create_fleet` builds. -/
def AllUndeployed (fleet : Fleet) : Prop := ∀ s ∈ fleet, s.deployed = false

instance (fleet : Fleet) : Decidable (AllUndeployed fleet) := by
  unfold AllUndeployed; infer_instance

/-- The free symbol is an ordinary map symbol: it contains neither the ANSI
escape character (so it can never coincide with a rendered ship-body cell)
nor the letter x (so it can never coincide with the hard-coded buffer
mark "x"). -/
def PlainSymbol (symbol : Cell) : Prop :=
  escChar ∉ symbol.data ∧ 'x' ∉ symbol.data

instance (symbol : Cell) : Decidable (PlainSymbol symbol) := by
  unfold PlainSymbol; infer_instance

/-! ## Basic grid lemmas -/

theorem getCell_some {g : Grid} {r c : Nat} {cell : Cell}
    (h : getCell g r c = some cell) :
    ∃ row, g[r]? = some row ∧ row[c]? = some cell := by
  unfold getCell at h
  cases hr : g[r]? with
  | none => rw [hr] at h; simp at h
  | some row => rw [hr] at h; exact ⟨row, rfl, h⟩

theorem getCell_of_rows {g : Grid} {r c : Nat} {row : List Cell}
    (hr : g[r]? = some row) : getCell g r c = row[c]? := by
  unfold getCell; rw [hr]; rfl

theorem setCell_spec {g : Grid} {r c : Nat} {s : Cell} {g' : Grid}
    (h : setCell g r c s = some g') :
    ∃ row, g[r]? = some row ∧ c < row.length ∧
      g' = g.set r (row.set c s) := by
  unfold setCell at h
  rw [Option.bind_eq_some] at h
  obtain ⟨row, hr, h⟩ := h
  rw [Option.map_eq_some'] at h
  obtain ⟨cell, hc, h⟩ := h
  exact ⟨row, hr, (List.getElem?_eq_some_iff.mp hc).1, h.symm⟩

theorem getCell_setCell_self {g : Grid} {r c : Nat} {s : Cell} {g' : Grid}
    (h : setCell g r c s = some g') : getCell g' r c = some s := by
  obtain ⟨row, hr, hc, rfl⟩ := setCell_spec h
  have hrlen : r < g.length := (List.getElem?_eq_some_iff.mp hr).1
  have : (g.set r (row.set c s))[r]? = some (row.set c s) :=
    List.getElem?_set_eq_of_lt _ (by simpa using hrlen)
  rw [getCell_of_rows this]
  exact List.getElem?_set_eq_of_lt _ (by simpa using hc)

theorem getCell_setCell_other {g : Grid} {r c : Nat} {s : Cell} {g' : Grid}
    (h : setCell g r c s = some g') (r' c' : Nat)
    (hne : (r', c') ≠ (r, c)) : getCell g' r' c' = getCell g r' c' := by
  obtain ⟨row, hr, _, rfl⟩ := setCell_spec h
  by_cases hrr : r' = r
  · subst hrr
    have hcc : c' ≠ c := by
      intro hc; exact hne (by rw [hc])
    have hrow : (g.set r' (row.set c s))[r']? = some (row.set c s) := by
      have hrlen : r' < g.length := (List.getElem?_eq_some_iff.mp hr).1
      exact List.getElem?_set_eq_of_lt _ (by simpa using hrlen)
    rw [getCell_of_rows hrow, getCell_of_rows hr]
    exact List.getElem?_set_ne hcc.symm
  · have : (g.set r (row.set c s))[r']? = g[r']? :=
      List.getElem?_set_ne (fun hh => hrr hh.symm)
    unfold getCell
    rw [this]

theorem setCell_isSome {g : Grid} {r c : Nat} {s : Cell} {row : List Cell}
    (hr : g[r]? = some row) (hc : c < row.length) :
    ∃ g', setCell g r c s = some g' := by
  have hcell : row[c]? = some row[c] := List.getElem?_eq_some_iff.mpr ⟨hc, rfl⟩
  exact ⟨_, by unfold setCell; rw [hr, Option.some_bind, hcell, Option.map_some']⟩

theorem Rect.rows {h w : Nat} {g : Grid} (hg : Rect h w g) {r : Nat}
    (hr : r < h) : ∃ row, g[r]? = some row ∧ row.length = w := by
  obtain ⟨hlen, hrow⟩ := hg
  have hr' : r < g.length := by omega
  refine ⟨g[r], List.getElem?_eq_some_iff.mpr ⟨hr', rfl⟩, ?_⟩
  exact hrow _ (List.getElem_mem hr')

theorem Rect.getCell_isSome {h w : Nat} {g : Grid} (hg : Rect h w g)
    {r c : Nat} (hr : r < h) (hc : c < w) :
    ∃ cell, getCell g r c = some cell := by
  obtain ⟨row, hrow, hlen⟩ := hg.rows hr
  rw [getCell_of_rows hrow]
  exact ⟨row[c], List.getElem?_eq_some_iff.mpr ⟨by omega, rfl⟩⟩

theorem Rect.getCell_bounds {h w : Nat} {g : Grid} (hg : Rect h w g)
    {r c : Nat} {cell : Cell} (hcell : getCell g r c = some cell) :
    r < h ∧ c < w := by
  obtain ⟨row, hr, hc⟩ := getCell_some hcell
  obtain ⟨hlen, hrow⟩ := hg
  have hr' : r < g.length := (List.getElem?_eq_some_iff.mp hr).1
  have hmem : row ∈ g := List.getElem?_mem hr
  have hc' : c < row.length := (List.getElem?_eq_some_iff.mp hc).1
  exact ⟨by omega, by rw [← hrow row hmem]; exact hc'⟩

theorem Rect.setCell {h w : Nat} {g g' : Grid} (hg : Rect h w g)
    {r c : Nat} {s : Cell} (hs : setCell g r c s = some g') :
    Rect h w g' := by
  obtain ⟨row, hr, hc, rfl⟩ := setCell_spec hs
  obtain ⟨hlen, hrow⟩ := hg
  constructor
  · simpa using hlen
  · intro row' hrow'
    rcases List.mem_or_eq_of_mem_set hrow' with hmem | rfl
    · exact hrow _ hmem
    · rw [List.length_set]
      exact hrow _ (List.getElem?_mem hr)

/-! ## `search_pattern` lemmas -/

theorem mem_blockIdxs {h w : Nat} {p : Nat × Nat} :
    p ∈ blockIdxs h w ↔ p.1 < h ∧ p.2 < w := by
  unfold blockIdxs
  constructor
  · intro hp
    obtain ⟨i, hi, hp⟩ := List.mem_flatMap.mp hp
    obtain ⟨j, hj, rfl⟩ := List.mem_map.mp hp
    exact ⟨List.mem_range.mp hi, List.mem_range.mp hj⟩
  · rintro ⟨h1, h2⟩
    exact List.mem_flatMap.mpr ⟨p.1, List.mem_range.mpr h1,
      List.mem_map.mpr ⟨p.2, List.mem_range.mpr h2, rfl⟩⟩

theorem mem_pyRangeLen {m k r : Nat} :
    r ∈ pyRangeLen m k ↔ r + k ≤ m := by
  unfold pyRangeLen
  split
  · next hk => rw [List.mem_range]; omega
  · next hk => simp; omega

theorem mem_searchAnchors {H W h w : Nat} {rc : Coord} :
    rc ∈ searchAnchors H W h w ↔ rc.1 + h ≤ H ∧ rc.2 + w ≤ W := by
  unfold searchAnchors
  constructor
  · intro hp
    obtain ⟨r, hr, hp⟩ := List.mem_flatMap.mp hp
    obtain ⟨c, hc, rfl⟩ := List.mem_map.mp hp
    exact ⟨mem_pyRangeLen.mp hr, mem_pyRangeLen.mp hc⟩
  · rintro ⟨h1, h2⟩
    exact List.mem_flatMap.mpr ⟨rc.1, mem_pyRangeLen.mpr h1,
      List.mem_map.mpr ⟨rc.2, mem_pyRangeLen.mpr h2, by simp⟩⟩

theorem checkBlock_true_all {g : Grid} {patRow : List Char} {row col : Nat}
    {idxs : List (Nat × Nat)}
    (h : checkBlock g patRow row col idxs = some true) :
    ∀ p ∈ idxs, ∃ ch, patRow[p.2]? = some ch ∧
      getCell g (row + p.1) (col + p.2) = some (String.mk [ch]) := by
  induction idxs with
  | nil => intro p hp; simp at hp
  | cons q rest ih =>
    intro p hp
    unfold checkBlock at h
    cases hcell : getCell g (row + q.1) (col + q.2) with
    | none => rw [hcell] at h; simp at h
    | some cell =>
      rw [hcell] at h
      cases hch : patRow[q.2]? with
      | none => rw [hch] at h; simp at h
      | some pch =>
        rw [hch] at h
        simp only at h
        by_cases heq : cell = String.mk [pch]
        · rw [if_pos heq] at h
          rcases List.mem_cons.mp hp with rfl | hmem
          · exact ⟨pch, hch, by rw [hcell, heq]⟩
          · exact ih h p hmem
        · rw [if_neg heq] at h
          simp at h

theorem searchScan_mem {g : Grid} {patRow : List Char} {h w : Nat}
    {anchors L : List Coord} (hs : searchScan g patRow h w anchors = some L) :
    ∀ rc ∈ L, rc ∈ anchors ∧
      checkBlock g patRow rc.1 rc.2 (blockIdxs h w) = some true := by
  induction anchors generalizing L with
  | nil =>
    unfold searchScan at hs
    obtain rfl : ([] : List Coord) = L := by simpa using hs
    intro rc hrc; simp at hrc
  | cons a rest ih =>
    unfold searchScan at hs
    cases hcb : checkBlock g patRow a.1 a.2 (blockIdxs h w) with
    | none => rw [hcb] at hs; simp at hs
    | some b =>
      rw [hcb] at hs
      cases hrest : searchScan g patRow h w rest with
      | none => rw [hrest] at hs; simp at hs
      | some tail =>
        rw [hrest] at hs
        simp only [Option.some.injEq] at hs
        intro rc hrc
        cases b with
        | true =>
          rw [← hs] at hrc
          rcases List.mem_cons.mp hrc with rfl | hmem
          · exact ⟨List.mem_cons_self _ _, hcb⟩
          · obtain ⟨h1, h2⟩ := ih hrest rc hmem
            exact ⟨List.mem_cons_of_mem _ h1, h2⟩
        | false =>
          rw [← hs] at hrc
          obtain ⟨h1, h2⟩ := ih hrest rc (by simpa using hrc)
          exact ⟨List.mem_cons_of_mem _ h1, h2⟩

theorem patRow_elem_mem {symbol : Cell} {w j : Nat} {ch : Char}
    (h : ((List.replicate w symbol.data).flatten)[j]? = some ch) :
    ch ∈ symbol.data := by
  have hmem := List.getElem?_mem h
  obtain ⟨l, hl, hchl⟩ := List.mem_flatten.mp hmem
  rwa [List.eq_of_mem_replicate hl] at hchl

/-- Soundness of `search_pattern`: every returned anchor's block lies within
the anchor ranges and each of its cells holds a one-character string drawn
from the characters of the search symbol. -/
theorem search_pattern_sound {g : Grid} {h w : Nat} {symbol : Cell}
    {L : List Coord} (hs : search_pattern g h w symbol = some L) :
    ∀ rc ∈ L, (rc.1 + h ≤ g.length ∧ rc.2 + w ≤ (g.headD []).length) ∧
      ∀ i j, i < h → j < w → ∃ ch ∈ symbol.data,
        getCell g (rc.1 + i) (rc.2 + j) = some (String.mk [ch]) := by
  unfold search_pattern at hs
  cases hh : g.head? with
  | none => rw [hh] at hs; simp at hs
  | some row0 =>
    rw [hh] at hs
    simp only at hs
    intro rc hrc
    obtain ⟨hanch, hcb⟩ := searchScan_mem hs rc hrc
    have hbounds := mem_searchAnchors.mp hanch
    have hrow0 : g.headD [] = row0 := by
      cases g with
      | nil => simp at hh
      | cons a l => simp at hh; simp [hh]
    refine ⟨⟨hbounds.1, by rw [hrow0]; exact hbounds.2⟩, ?_⟩
    intro i j hi hj
    obtain ⟨ch, hch, hcell⟩ :=
      checkBlock_true_all hcb (i, j) (mem_blockIdxs.mpr ⟨hi, hj⟩)
    exact ⟨ch, patRow_elem_mem hch, hcell⟩

/-- The matched cells of `search_pattern` are single-character strings over
the symbol's characters: they never contain the escape character and never
equal "x" when the symbol is plain. -/
theorem matched_cell_plain {symbol : Cell} (hplain : PlainSymbol symbol)
    {ch : Char} (hch : ch ∈ symbol.data) :
    escChar ∉ (String.mk [ch]).data ∧ String.mk [ch] ≠ "x" := by
  obtain ⟨hesc, hx⟩ := hplain
  constructor
  · intro hmem
    simp only [String.data] at hmem
    rcases List.mem_singleton.mp hmem with rfl
    exact hesc hch
  · intro heq
    have : ch = 'x' := by
      have hdata : (String.mk [ch]).data = ("x" : String).data := by rw [heq]
      simpa using hdata
    subst this
    exact hx hch

/-! ## `map_show_symbols` lemmas -/

theorem map_show_symbols_untouched {g g' : Grid} {coords : List Coord}
    {syms : List Cell} (h : map_show_symbols g coords syms = (g', true)) :
    ∀ r c, (r, c) ∉ coords → getCell g' r c = getCell g r c := by
  induction coords generalizing g syms with
  | nil =>
    simp only [map_show_symbols] at h
    obtain rfl : g = g' := congrArg Prod.fst h
    intro r c _; rfl
  | cons p rest ih =>
    intro r c hnot
    cases syms with
    | nil => simp [map_show_symbols] at h
    | cons s ss =>
      simp only [map_show_symbols] at h
      cases hset : setCell g p.1 p.2 s with
      | none => rw [hset] at h; simp at h
      | some g1 =>
        rw [hset] at h
        have h1 := ih h r c (fun hm => hnot (List.mem_cons_of_mem _ hm))
        rw [h1]
        exact getCell_setCell_other hset r c
          (fun he => hnot (by rw [he]; exact List.mem_cons_self _ _))

theorem map_show_symbols_mem {g g' : Grid} {coords : List Coord}
    {syms : List Cell} (h : map_show_symbols g coords syms = (g', true)) :
    ∀ p ∈ coords, ∃ s ∈ syms, getCell g' p.1 p.2 = some s := by
  induction coords generalizing g syms with
  | nil => intro p hp; simp at hp
  | cons q rest ih =>
    intro p hp
    cases syms with
    | nil => simp [map_show_symbols] at h
    | cons s ss =>
      simp only [map_show_symbols] at h
      cases hset : setCell g q.1 q.2 s with
      | none => rw [hset] at h; simp at h
      | some g1 =>
        rw [hset] at h
        rcases List.mem_cons.mp hp with rfl | hmem
        · by_cases hq : p ∈ rest
          · obtain ⟨t, ht, hcell⟩ := ih h p hq
            exact ⟨t, List.mem_cons_of_mem _ ht, hcell⟩
          · refine ⟨s, List.mem_cons_self _ _, ?_⟩
            rw [map_show_symbols_untouched h p.1 p.2 hq]
            exact getCell_setCell_self hset
        · obtain ⟨t, ht, hcell⟩ := ih h p hmem
          exact ⟨t, List.mem_cons_of_mem _ ht, hcell⟩

theorem map_show_symbols_rect {hh ww : Nat} {g g' : Grid}
    {coords : List Coord} {syms : List Cell} (hg : Rect hh ww g)
    (h : map_show_symbols g coords syms = (g', true)) : Rect hh ww g' := by
  induction coords generalizing g syms with
  | nil =>
    simp only [map_show_symbols] at h
    obtain rfl : g = g' := congrArg Prod.fst h
    exact hg
  | cons p rest ih =>
    cases syms with
    | nil => simp [map_show_symbols] at h
    | cons s ss =>
      simp only [map_show_symbols] at h
      cases hset : setCell g p.1 p.2 s with
      | none => rw [hset] at h; simp at h
      | some g1 =>
        rw [hset] at h
        exact ih (hg.setCell hset) h

theorem map_show_symbols_success {hh ww : Nat} {g : Grid}
    {coords : List Coord} {syms : List Cell} (hg : Rect hh ww g)
    (hbounds : ∀ p ∈ coords, p.1 < hh ∧ p.2 < ww)
    (hlen : coords.length ≤ syms.length) :
    ∃ g', map_show_symbols g coords syms = (g', true) := by
  induction coords generalizing g syms with
  | nil => exact ⟨g, rfl⟩
  | cons p rest ih =>
    cases syms with
    | nil => simp at hlen
    | cons s ss =>
      obtain ⟨hp1, hp2⟩ := hbounds p (List.mem_cons_self _ _)
      obtain ⟨row, hrow, hrowlen⟩ := hg.rows hp1
      obtain ⟨g1, hset⟩ := setCell_isSome (c := p.2) (s := s) hrow (by omega)
      obtain ⟨g', hg'⟩ := ih (hg.setCell hset)
        (fun q hq => hbounds q (List.mem_cons_of_mem _ hq))
        (by simpa using Nat.le_of_succ_le_succ hlen)
      refine ⟨g', ?_⟩
      unfold map_show_symbols
      rw [hset]
      exact hg'

theorem map_show_symbols_exact {g g' : Grid} {coords : List Coord}
    {syms : List Cell} (h : map_show_symbols g coords syms = (g', true))
    (hnodup : coords.Nodup) :
    ∀ k, ∀ hk : k < coords.length,
      getCell g' coords[k].1 coords[k].2 = syms[k]? := by
  induction coords generalizing g syms with
  | nil => intro k hk; simp at hk
  | cons p rest ih =>
    intro k hk
    cases syms with
    | nil => simp [map_show_symbols] at h
    | cons s ss =>
      simp only [map_show_symbols] at h
      cases hset : setCell g p.1 p.2 s with
      | none => rw [hset] at h; simp at h
      | some g1 =>
        rw [hset] at h
        cases k with
        | zero =>
          have hnot : p ∉ rest := (List.nodup_cons.mp hnodup).1
          simp only [List.getElem_cons_zero]
          rw [map_show_symbols_untouched h p.1 p.2 hnot]
          simpa using getCell_setCell_self hset
        | succ k =>
          have := ih h (List.nodup_cons.mp hnodup).2 k
            (by simpa using Nat.lt_of_succ_lt_succ hk)
          simpa using this

/-! ## Buffer pass lemmas (`map_allocate_empty_space_for_ship`) -/

theorem bufferWrites_rect {hh ww : Nat} {symbol : Cell} {g g' : Grid}
    {ws : List (Int × Int)} {ok : Bool} (hg : Rect hh ww g)
    (h : bufferWrites symbol g ws = (g', ok)) : Rect hh ww g' := by
  induction ws generalizing g with
  | nil =>
    unfold bufferWrites at h
    obtain rfl : g = g' := congrArg Prod.fst h
    exact hg
  | cons p rest ih =>
    unfold bufferWrites at h
    split at h
    · cases hset : setCell g p.1.toNat p.2.toNat symbol with
      | none =>
        rw [hset] at h
        obtain rfl : g = g' := congrArg Prod.fst h
        exact hg
      | some g1 =>
        rw [hset] at h
        exact ih (hg.setCell hset) h
    · exact ih hg h

theorem bufferWrites_success {hh ww : Nat} {symbol : Cell} {g : Grid}
    {ws : List (Int × Int)} (hg : Rect hh ww g) :
    (bufferWrites symbol g ws).2 = true := by
  induction ws generalizing g with
  | nil => rfl
  | cons p rest ih =>
    unfold bufferWrites
    split
    · next hcond =>
      obtain ⟨h1, h2, h3, h4⟩ := hcond
      have hhead : (g.headD []).length = ww := by
        cases g with
        | nil => simp at h2; omega
        | cons row rows =>
          simpa using hg.2 row (List.mem_cons_self _ _)
      have hr : p.1.toNat < hh := by rw [← hg.1]; omega
      have hc : p.2.toNat < ww := by
        have : g.head?.getD [] = g.headD [] := by cases g <;> rfl
        rw [this, hhead] at h4; omega
      obtain ⟨row, hrow, hrowlen⟩ := hg.rows hr
      obtain ⟨g1, hset⟩ := setCell_isSome (c := p.2.toNat) (s := symbol) hrow (by omega)
      rw [hset]
      exact ih (hg.setCell hset)
    · exact ih hg

theorem bufferWrites_getCell {hh ww : Nat} {symbol : Cell} {g g' : Grid}
    {ws : List (Int × Int)} {ok : Bool} (hg : Rect hh ww g)
    (h : bufferWrites symbol g ws = (g', ok)) (r c : Nat) :
    getCell g' r c =
      if ((r : Int), (c : Int)) ∈ ws ∧ r < hh ∧ c < ww then some symbol
      else getCell g r c := by
  induction ws generalizing g with
  | nil =>
    unfold bufferWrites at h
    obtain rfl : g = g' := congrArg Prod.fst h
    simp
  | cons p rest ih =>
    have hhead : 0 < hh → (g.head?.getD []).length = ww := by
      intro hpos
      cases g with
      | nil => have := hg.1; simp at this; omega
      | cons row rows => simpa using hg.2 row (List.mem_cons_self _ _)
    unfold bufferWrites at h
    split at h
    · next hcond =>
      obtain ⟨h1, h2, h3, h4⟩ := hcond
      have hr : p.1.toNat < hh := by rw [← hg.1]; omega
      have hc : p.2.toNat < ww := by
        have hlen := hhead (by omega)
        omega
      obtain ⟨row, hrow, hrowlen⟩ := hg.rows hr
      obtain ⟨g1, hset⟩ := setCell_isSome (c := p.2.toNat) (s := symbol) hrow (by omega)
      rw [hset] at h
      rw [ih (hg.setCell hset) h]
      by_cases hrest : ((r : Int), (c : Int)) ∈ rest ∧ r < hh ∧ c < ww
      · rw [if_pos hrest, if_pos ⟨List.mem_cons_of_mem _ hrest.1, hrest.2⟩]
      · rw [if_neg hrest]
        by_cases hphit : p = ((r : Int), (c : Int)) ∧ r < hh ∧ c < ww
        · obtain ⟨rfl, hrb, hcb⟩ := hphit
          rw [if_pos ⟨List.mem_cons_self _ _, hrb, hcb⟩]
          have : (Int.toNat r, Int.toNat c) = (r, c) := by simp
          simpa [Int.toNat_ofNat] using getCell_setCell_self hset
        · have hne : ¬(((r : Int), (c : Int)) ∈ p :: rest ∧ r < hh ∧ c < ww) := by
            rintro ⟨hm, hb⟩
            rcases List.mem_cons.mp hm with he | hm'
            · exact hphit ⟨he.symm, hb⟩
            · exact hrest ⟨hm', hb⟩
          rw [if_neg hne]
          apply getCell_setCell_other hset
          intro he
          apply hphit
          have hr' : (r : Int) = p.1 := by
            have : r = p.1.toNat := congrArg Prod.fst he
            omega
          have hc' : (c : Int) = p.2 := by
            have : c = p.2.toNat := congrArg Prod.snd he
            omega
          refine ⟨by cases p; simp_all, ?_, ?_⟩
          · omega
          · omega
    · next hcond =>
      rw [ih hg h]
      by_cases hrest : ((r : Int), (c : Int)) ∈ rest ∧ r < hh ∧ c < ww
      · rw [if_pos hrest, if_pos ⟨List.mem_cons_of_mem _ hrest.1, hrest.2⟩]
      · rw [if_neg hrest]
        have hne : ¬(((r : Int), (c : Int)) ∈ p :: rest ∧ r < hh ∧ c < ww) := by
          rintro ⟨hm, hrb, hcb⟩
          rcases List.mem_cons.mp hm with he | hm'
          · apply hcond
            have hlen := hhead (by omega)
            rw [← he, hg.1, hlen]
            refine ⟨by omega, by omega, by omega, by omega⟩
          · exact hrest ⟨hm', hrb, hcb⟩
        rw [if_neg hne]

theorem mem_blank_space {q : Int × Int} :
    q ∈ blank_space ↔
      (q.1 = -1 ∨ q.1 = 0 ∨ q.1 = 1) ∧ (q.2 = -1 ∨ q.2 = 0 ∨ q.2 = 1) := by
  cases q with
  | mk a b =>
    simp [blank_space, Prod.ext_iff]
    omega

theorem mem_allocBlanks {coords : List Coord} {r c : Nat} :
    (((r : Int), (c : Int)) ∈ blank_space.flatMap fun off =>
      coords.map fun coord => (off.1 + (coord.1 : Int), off.2 + (coord.2 : Int)))
    ↔ nearShip coords r c := by
  rw [List.mem_flatMap]
  constructor
  · rintro ⟨off, hoff, hmem⟩
    obtain ⟨p, hp, heq⟩ := List.mem_map.mp hmem
    obtain ⟨ho1, ho2⟩ := mem_blank_space.mp hoff
    refine ⟨p, hp, ?_, ?_⟩
    · have h1 : (r : Int) = off.1 + p.1 := (congrArg Prod.fst heq).symm
      omega
    · have h2 : (c : Int) = off.2 + p.2 := (congrArg Prod.snd heq).symm
      omega
  · rintro ⟨p, hp, h1, h2⟩
    refine ⟨((r : Int) - p.1, (c : Int) - p.2), ?_, ?_⟩
    · rw [mem_blank_space]
      constructor
      · simp only []
        omega
      · simp only []
        omega
    · refine List.mem_map.mpr ⟨p, hp, ?_⟩
      simp only [Prod.ext_iff]
      omega

/-- Full characterization of the buffer pass on a well-formed grid: it
succeeds, and a cell is overwritten with the buffer symbol exactly when it
lies in the closed 8-neighborhood of some ship cell (the ship cells
themselves included, offset (0,0)); all other cells are untouched. -/
theorem map_allocate_spec {hh ww : Nat} {g : Grid} {coords : List Coord}
    {b : Cell} (hg : Rect hh ww g) :
    (map_allocate_empty_space_for_ship g coords b).2 = true ∧
    ∀ r c, getCell (map_allocate_empty_space_for_ship g coords b).1 r c =
      if nearShip coords r c ∧ r < hh ∧ c < ww then some b
      else getCell g r c := by
  unfold map_allocate_empty_space_for_ship
  refine ⟨bufferWrites_success hg, ?_⟩
  intro r c
  cases hbw : bufferWrites b g (blank_space.flatMap fun off =>
      coords.map fun coord => (off.1 + (coord.1 : Int), off.2 + (coord.2 : Int))) with
  | mk g' ok =>
    have := bufferWrites_getCell hg hbw r c
    simp only []
    rw [this]
    by_cases hnear : nearShip coords r c
    · by_cases hb : r < hh ∧ c < ww
      · rw [if_pos ⟨mem_allocBlanks.mpr hnear, hb⟩, if_pos ⟨hnear, hb⟩]
      · rw [if_neg (fun hcon => hb hcon.2), if_neg (fun hcon => hb hcon.2)]
    · rw [if_neg (fun hcon => hnear (mem_allocBlanks.mp hcon.1)),
        if_neg (fun hcon => hnear hcon.1)]

theorem map_allocate_rect {hh ww : Nat} {g : Grid} {coords : List Coord}
    {b : Cell} (hg : Rect hh ww g) :
    Rect hh ww (map_allocate_empty_space_for_ship g coords b).1 := by
  unfold map_allocate_empty_space_for_ship
  cases hbw : bufferWrites b g (blank_space.flatMap fun off =>
      coords.map fun coord => (off.1 + (coord.1 : Int), off.2 + (coord.2 : Int))) with
  | mk g' ok => exact bufferWrites_rect hg hbw

/-! ## `map_show_only_ships` lemmas -/

theorem map_show_only_ships_rect {hh ww : Nat} {g : Grid} {x d : Cell}
    (hg : Rect hh ww g) : Rect hh ww (map_show_only_ships g x d) := by
  obtain ⟨hlen, hrow⟩ := hg
  constructor
  · simpa [map_show_only_ships] using hlen
  · intro row hr
    simp only [map_show_only_ships, List.mem_map] at hr
    obtain ⟨row0, hrow0, rfl⟩ := hr
    simpa using hrow _ hrow0

theorem map_show_only_ships_getCell {hh ww : Nat} {g : Grid} {x d : Cell}
    (hg : Rect hh ww g) {r c : Nat} {cell : Cell}
    (hget : getCell g r c = some cell) :
    getCell (map_show_only_ships g x d) r c =
      some (if cell = x then d else cell) := by
  obtain ⟨row, hrow, hc⟩ := getCell_some hget
  have hcw : c < ww := by
    have := (List.getElem?_eq_some_iff.mp hc).1
    rw [hg.2 row (List.getElem?_mem hrow)] at this
    exact this
  have hw0 : (g.head?.getD []).length = ww := by
    cases g with
    | nil => simp at hrow
    | cons a l => simpa using hg.2 a (List.mem_cons_self _ _)
  unfold map_show_only_ships getCell
  simp only [List.getElem?_map, hrow, Option.map_some', Option.some_bind,
    List.getElem?_enum, hc, hw0]
  by_cases hx : cell = x
  · rw [if_pos ⟨hcw, hx⟩, if_pos hx]
  · rw [if_neg (fun hcon => hx hcon.2), if_neg hx]

/-! ## `create_coordinate_list` lemmas -/

theorem create_coordinate_list_horizontal (r c n : Nat) :
    create_coordinate_list r c "Horizontal" n =
      (List.range n).map fun k => (r, c + k) := by
  unfold create_coordinate_list
  by_cases h1 : n = 1
  · subst h1
    simp [List.range_succ]
  · rw [if_neg h1]
    simp

theorem create_coordinate_list_vertical (r c n : Nat) :
    create_coordinate_list r c "Vertical" n =
      (List.range n).map fun k => (r + k, c) := by
  unfold create_coordinate_list
  by_cases h1 : n = 1
  · subst h1
    simp [List.range_succ]
  · rw [if_neg h1]
    simp

theorem create_coordinate_list_single (r c : Nat) :
    create_coordinate_list r c "Single" 1 = [(r, c)] := rfl

/-! ## `get_symbols` and `deployShip` lemmas -/

theorem deployShip_fields (ship : Ship) (al : String) (coords : List Coord) :
    (deployShip ship al coords).deployed = true ∧
    (deployShip ship al coords).cell_coordinates = coords ∧
    (deployShip ship al coords).size = ship.size ∧
    (deployShip ship al coords).alignment = some al := by
  unfold deployShip set_alignment
  exact ⟨rfl, rfl, rfl, rfl⟩

theorem esc_mem_colored (color mid : String) :
    escChar ∈ (color ++ mid ++ colorReset).data := by
  rw [String.data_append, String.data_append]
  refine List.mem_append.mpr (Or.inr ?_)
  show escChar ∈ colorReset.data
  decide

/-- In the deployment flow `get_symbols` always succeeds on the freshly
deployed ship: its alignment is Horizontal or Vertical, or its size is at
most 1.  Every produced cell string ends with the ANSI reset sequence and
hence contains the escape character. -/
theorem get_symbols_deployed {ship : Ship}
    (hal : ship.alignment = some "Horizontal" ∨
      ship.alignment = some "Vertical" ∨ ship.size ≤ 1) :
    ∃ syms, get_symbols ship = some syms ∧ syms.length = ship.size ∧
      ∀ s ∈ syms, escChar ∈ s.data := by
  unfold get_symbols
  have hguard : ¬(2 ≤ ship.size ∧ (alignSymbols ship.alignment).length < 2) := by
    rcases hal with h | h | h
    · rw [h]; simp [alignSymbols]
    · rw [h]; simp [alignSymbols]
    · omega
  rw [if_neg hguard]
  refine ⟨_, rfl, by simp, ?_⟩
  intro s hs
  simp only [List.mem_map] at hs
  obtain ⟨i, _, rfl⟩ := hs
  exact esc_mem_colored _ _

/-- A string containing the escape character is not "x" and is not a
one-character string over a plain symbol's characters. -/
theorem blocked_of_esc {cell : Cell} (h : escChar ∈ cell.data) :
    cell ≠ "x" := by
  intro heq
  rw [heq] at h
  revert h
  decide

/-! ## Ship selection and the loop measure -/

theorem foldl_best_mem {α : Type} (P : α → α → Prop) [DecidableRel P] :
    ∀ (l : List α) (x : α),
      (l.foldl (fun best y => if P y best then y else best) x) ∈ x :: l := by
  intro l
  induction l with
  | nil => intro x; simp
  | cons a rest ih =>
    intro x
    simp only [List.foldl_cons]
    by_cases hf : P a x
    · rw [if_pos hf]
      have := ih a
      rcases List.mem_cons.mp this with h | h
      · rw [h]; simp
      · simp [h]
    · rw [if_neg hf]
      have := ih x
      rcases List.mem_cons.mp this with h | h
      · rw [h]; simp
      · simp [h]

theorem select_spec {fleet : Fleet} {i : Nat} {ship : Ship}
    (h : select_biggest_undeployed fleet = some (i, ship)) :
    fleet[i]? = some ship ∧ ship.deployed = false := by
  unfold select_biggest_undeployed at h
  cases hf : fleet.enum.filter (fun p => p.2.deployed = false) with
  | nil => rw [hf] at h; simp at h
  | cons x xs =>
    rw [hf] at h
    simp only [Option.some.injEq] at h
    have hmem : (i, ship) ∈ x :: xs := by
      rw [← h]
      exact foldl_best_mem (fun y best : Nat × Ship => y.2.size > best.2.size) xs x
    have hmem' : (i, ship) ∈ fleet.enum.filter (fun p => p.2.deployed = false) := by
      rw [hf]; exact hmem
    have hfil := List.mem_filter.mp hmem'
    refine ⟨List.mem_enum_iff_getElem?.mp hfil.1, by simpa using hfil.2⟩

theorem select_none_iff {fleet : Fleet} :
    select_biggest_undeployed fleet = none ↔ ∀ s ∈ fleet, s.deployed = true := by
  unfold select_biggest_undeployed
  cases hf : fleet.enum.filter (fun p => p.2.deployed = false) with
  | nil =>
    simp only [true_iff]
    intro s hs
    obtain ⟨j, hj, rfl⟩ := List.getElem_of_mem hs
    have henum : (j, fleet[j]) ∈ fleet.enum :=
      List.mem_enum_iff_getElem?.mpr (by simp [hj])
    by_contra hdep
    have : (j, fleet[j]) ∈ fleet.enum.filter (fun p => p.2.deployed = false) :=
      List.mem_filter.mpr ⟨henum, by simpa using hdep⟩
    rw [hf] at this
    simp at this
  | cons x xs =>
    simp only []
    constructor
    · intro hcon; simp at hcon
    · intro hall
      have hx : x ∈ fleet.enum.filter (fun p => p.2.deployed = false) := by
        rw [hf]; exact List.mem_cons_self _ _
      have := List.mem_filter.mp hx
      have hmem : x.2 ∈ fleet := by
        have := List.mem_enum_iff_getElem?.mp this.1
        exact List.getElem?_mem this
      have h1 := hall _ hmem
      have h2 := (List.mem_filter.mp hx).2
      simp [h1] at h2

theorem filter_length_set_lt {α : Type} {p : α → Bool} {l : List α} {i : Nat}
    {a b : α} (hget : l[i]? = some a) (hpa : p a = true) (hpb : p b = false) :
    (List.filter p (l.set i b)).length < (List.filter p l).length := by
  induction l generalizing i with
  | nil => simp at hget
  | cons x rest ih =>
    cases i with
    | zero =>
      obtain rfl : x = a := by simpa using hget
      simp only [List.set_cons_zero, List.filter_cons, hpa, hpb]
      simp
    | succ j =>
      have hget' : rest[j]? = some a := by simpa using hget
      have hlt := ih hget'
      simp only [List.set_cons_succ, List.filter_cons]
      cases hpx : p x
      · simpa using hlt
      · simpa using Nat.succ_lt_succ hlt

theorem undeployedCount_set_lt {fleet : Fleet} {i : Nat} {ship ship' : Ship}
    (hget : fleet[i]? = some ship) (hdep : ship.deployed = false)
    (hdep' : ship'.deployed = true) :
    undeployedCount (fleet.set i ship') < undeployedCount fleet := by
  unfold undeployedCount
  exact filter_length_set_lt hget (by simp [hdep]) (by simp [hdep'])

/-! ## Placement lemmas (`cpu_deploy_get_coordinates`, `cpu_deploy_single_ship`) -/

/-- The block dimensions `search_pattern` was invoked with for a given
returned alignment: 1×1 for Single, 1×size for Horizontal, size×1 for
Vertical. -/
def patternDims (alignment : String) (n : Nat) : Nat × Nat :=
  if alignment = "Single" then (1, 1)
  else (if alignment = "Horizontal" then 1 else n,
    if alignment = "Vertical" then 1 else n)

theorem ite_VH {α : Type} (a b : α) :
    (if ("Vertical" : String) = "Horizontal" then a else b) = b :=
  if_neg (by decide)

theorem ite_HV {α : Type} (a b : α) :
    (if ("Horizontal" : String) = "Vertical" then a else b) = b :=
  if_neg (by decide)

theorem get_coordinates_ok {g : Grid} {n : Nat} {symbol : Cell}
    {rs rs' : List Nat} {al : String} {L : List Coord}
    (h : cpu_deploy_get_coordinates g n symbol rs = (.ok al L, rs')) :
    search_pattern g (patternDims al n).1 (patternDims al n).2 symbol = some L
    ∧ L ≠ [] ∧
    ((al = "Single" ∧ n = 1) ∨
      ((al = "Horizontal" ∨ al = "Vertical") ∧ n ≠ 1)) := by
  unfold cpu_deploy_get_coordinates at h
  by_cases hn : n = 1
  · rw [if_pos hn] at h
    cases hs : search_pattern g 1 1 symbol with
    | none => rw [hs] at h; simp at h
    | some L0 =>
      rw [hs] at h
      cases L0 with
      | nil => simp at h
      | cons a as =>
        simp only [Prod.mk.injEq, PlaceRes.ok.injEq] at h
        obtain ⟨⟨rfl, rfl⟩, rfl⟩ := h
        refine ⟨?_, by simp, Or.inl ⟨rfl, hn⟩⟩
        simpa [patternDims] using hs
  · rw [if_neg hn] at h
    cases hrp : randPick 2 rs with
    | mk k rs1 =>
      rw [hrp] at h
      simp only [] at h
      by_cases hk : k = 0
      · rw [if_pos hk, if_pos hk] at h
        simp only [reduceIte, ite_VH, ite_HV] at h
        cases hs : search_pattern g n 1 symbol with
        | none => rw [hs] at h; simp at h
        | some L0 =>
          rw [hs] at h
          cases L0 with
          | cons a as =>
            simp only [Prod.mk.injEq, PlaceRes.ok.injEq] at h
            obtain ⟨⟨rfl, rfl⟩, rfl⟩ := h
            refine ⟨?_, by simp, Or.inr ⟨Or.inr rfl, hn⟩⟩
            simpa [patternDims] using hs
          | nil =>
            cases hs2 : search_pattern g 1 n symbol with
            | none => rw [hs2] at h; simp at h
            | some L1 =>
              rw [hs2] at h
              cases L1 with
              | nil => simp at h
              | cons b bs =>
                simp only [Prod.mk.injEq, PlaceRes.ok.injEq] at h
                obtain ⟨⟨rfl, rfl⟩, rfl⟩ := h
                refine ⟨?_, by simp, Or.inr ⟨Or.inl rfl, hn⟩⟩
                simpa [patternDims] using hs2
      · rw [if_neg hk, if_neg hk] at h
        simp only [reduceIte, ite_VH, ite_HV] at h
        cases hs : search_pattern g 1 n symbol with
        | none => rw [hs] at h; simp at h
        | some L0 =>
          rw [hs] at h
          cases L0 with
          | cons a as =>
            simp only [Prod.mk.injEq, PlaceRes.ok.injEq] at h
            obtain ⟨⟨rfl, rfl⟩, rfl⟩ := h
            refine ⟨?_, by simp, Or.inr ⟨Or.inl rfl, hn⟩⟩
            simpa [patternDims] using hs
          | nil =>
            cases hs2 : search_pattern g n 1 symbol with
            | none => rw [hs2] at h; simp at h
            | some L1 =>
              rw [hs2] at h
              cases L1 with
              | nil => simp at h
              | cons b bs =>
                simp only [Prod.mk.injEq, PlaceRes.ok.injEq] at h
                obtain ⟨⟨rfl, rfl⟩, rfl⟩ := h
                refine ⟨?_, by simp, Or.inr ⟨Or.inr rfl, hn⟩⟩
                simpa [patternDims] using hs2

theorem single_ship_ok {g : Grid} {n : Nat} {symbol : Cell}
    {rs rs' : List Nat} {al : String} {coords : List Coord}
    (h : cpu_deploy_single_ship g n symbol rs = (.ok al coords, rs')) :
    ∃ L r c,
      search_pattern g (patternDims al n).1 (patternDims al n).2 symbol = some L
      ∧ (r, c) ∈ L ∧ coords = create_coordinate_list r c al n ∧
      ((al = "Single" ∧ n = 1) ∨
        ((al = "Horizontal" ∨ al = "Vertical") ∧ n ≠ 1)) := by
  unfold cpu_deploy_single_ship at h
  cases hgc : cpu_deploy_get_coordinates g n symbol rs with
  | mk res rs1 =>
    rw [hgc] at h
    cases res with
    | exc => simp at h
    | fls => simp at h
    | ok al0 L =>
      simp only [] at h
      cases hrp : randPick L.length rs1 with
      | mk j rs2 =>
        rw [hrp] at h
        simp only [] at h
        cases hj : L[j]? with
        | none => rw [hj] at h; simp at h
        | some loc =>
          rw [hj] at h
          simp only [Prod.mk.injEq, PlaceRes.ok.injEq] at h
          obtain ⟨⟨rfl, rfl⟩, rfl⟩ := h
          obtain ⟨hsp, _, hcases⟩ := get_coordinates_ok hgc
          exact ⟨L, loc.1, loc.2, hsp, by simpa using List.getElem?_mem hj,
            rfl, hcases⟩

/-- The coordinates produced by a successful single-ship placement: exactly
`n` distinct coordinates, each reading (on the current grid) a
one-character string over the search symbol's characters. -/
theorem placement_shape {g : Grid} {n : Nat} {symbol : Cell}
    {rs rs' : List Nat} {al : String} {coords : List Coord}
    (h : cpu_deploy_single_ship g n symbol rs = (.ok al coords, rs')) :
    coords.length = n ∧ coords.Nodup ∧
    ∀ p ∈ coords, ∃ ch ∈ symbol.data,
      getCell g p.1 p.2 = some (String.mk [ch]) := by
  obtain ⟨L, r, c, hsp, hmem, rfl, hcases⟩ := single_ship_ok h
  have hsound := search_pattern_sound hsp (r, c) hmem
  rcases hcases with ⟨rfl, rfl⟩ | ⟨hhv, hn⟩
  · rw [create_coordinate_list_single]
    refine ⟨rfl, by simp, ?_⟩
    intro p hp
    obtain rfl : p = (r, c) := by simpa using hp
    have := hsound.2 0 0 (by simp [patternDims]) (by simp [patternDims])
    simpa using this
  · rcases hhv with rfl | rfl
    · rw [create_coordinate_list_horizontal]
      refine ⟨by simp, ?_, ?_⟩
      · refine List.Nodup.map ?_ (List.nodup_range n)
        intro a b hab
        simpa using congrArg Prod.snd hab
      · intro p hp
        obtain ⟨k, hk, rfl⟩ := List.mem_map.mp hp
        have hkn : k < n := List.mem_range.mp hk
        have := hsound.2 0 k (by simp [patternDims]) (by simp [patternDims, hkn])
        simpa using this
    · rw [create_coordinate_list_vertical]
      refine ⟨by simp, ?_, ?_⟩
      · refine List.Nodup.map ?_ (List.nodup_range n)
        intro a b hab
        simpa using congrArg Prod.fst hab
      · intro p hp
        obtain ⟨k, hk, rfl⟩ := List.mem_map.mp hp
        have hkn : k < n := List.mem_range.mp hk
        have := hsound.2 k 0 (by simp [patternDims, hkn]) (by simp [patternDims])
        simpa using this

/-- On a well-formed grid, the produced coordinates are in bounds. -/
theorem placement_bounds {hh ww : Nat} {g : Grid} {n : Nat} {symbol : Cell}
    {rs rs' : List Nat} {al : String} {coords : List Coord}
    (hg : Rect hh ww g)
    (h : cpu_deploy_single_ship g n symbol rs = (.ok al coords, rs')) :
    ∀ p ∈ coords, p.1 < hh ∧ p.2 < ww := by
  obtain ⟨L, r, c, hsp, hmem, rfl, hcases⟩ := single_ship_ok h
  have hsound := search_pattern_sound hsp (r, c) hmem
  have hglen : g.length = hh := hg.1
  have hhead : (g.headD []).length = ww ∨ g = [] := by
    cases g with
    | nil => exact Or.inr rfl
    | cons a l => exact Or.inl (by simpa using hg.2 a (List.mem_cons_self _ _))
  have hgne : g ≠ [] := by
    intro hcon
    rw [hcon] at hsp
    simp [search_pattern] at hsp
  have hheadw : (g.headD []).length = ww := hhead.resolve_right hgne
  obtain ⟨⟨hb1, hb2⟩, _⟩ := hsound
  rw [hglen] at hb1
  rw [hheadw] at hb2
  rcases hcases with ⟨rfl, rfl⟩ | ⟨hhv, hn⟩
  · rw [create_coordinate_list_single]
    intro p hp
    obtain rfl : p = (r, c) := by simpa using hp
    simp only [patternDims] at hb1 hb2
    simp at hb1 hb2
    exact ⟨by omega, by omega⟩
  · rcases hhv with rfl | rfl
    · rw [create_coordinate_list_horizontal]
      intro p hp
      obtain ⟨k, hk, rfl⟩ := List.mem_map.mp hp
      have hkn : k < n := List.mem_range.mp hk
      simp only [patternDims] at hb1 hb2
      simp at hb1 hb2
      exact ⟨by omega, by omega⟩
    · rw [create_coordinate_list_vertical]
      intro p hp
      obtain ⟨k, hk, rfl⟩ := List.mem_map.mp hp
      have hkn : k < n := List.mem_range.mp hk
      simp only [patternDims] at hb1 hb2
      simp at hb1 hb2
      exact ⟨by omega, by omega⟩

/-! ## Termination of the deployment loop -/

theorem undeployedCount_le_length (fleet : Fleet) :
    undeployedCount fleet ≤ fleet.length :=
  List.length_filter_le _ _

/-- With fuel exceeding the number of undeployed ships, the deployment loop
never exhausts its fuel: every run reaches a real terminal state (a returned
grid or the value `False`). -/
theorem deploy_no_out {fuel : Nat} {g : Grid} {fleet : Fleet} {gaps : Bool}
    {symbol : Cell} {rs : List Nat}
    (hfuel : undeployedCount fleet < fuel) :
    (cpu_deploy_all_ships fuel g fleet gaps symbol rs).1.isOut = false := by
  induction fuel generalizing g fleet rs with
  | zero => omega
  | succ fuel ih =>
    rw [cpu_deploy_all_ships]
    split
    · rfl
    · rename_i i ship hsel
      split
      · rfl
      · rfl
      · rename_i alignment coords rs' hsingle
        split
        · rfl
        · rename_i symbols_list hsym
          split
          · rfl
          · rename_i gb hbuf
            split
            · rfl
            · rename_i g1 hshow
              apply ih
              obtain ⟨hget, hdep⟩ := select_spec hsel
              have := undeployedCount_set_lt hget hdep
                (deployShip_fields ship alignment coords).1
              omega

/-! ## Oracle lemmas -/

theorem oracleLoop_none {n : Nat} {fleet_config : Fleet} {symbol : Cell}
    {gaps : Bool} {rs : List Nat} :
    oracleLoop n none fleet_config symbol gaps rs = none := by
  induction n generalizing rs with
  | zero => rfl
  | succ n ih => simp only [oracleLoop]; exact ih

/-- The oracle reports a grid only when its very first deployment attempt
succeeded and produced exactly that grid. -/
theorem oracle_some_of_first_attempt {map_game : Grid} {fleet_config : Fleet}
    {symbol : Cell} {gaps : Bool} {rs : List Nat} {g' : Grid}
    (h : check_fleet_fits_map map_game fleet_config symbol gaps rs = some g') :
    ∃ fleet' rs',
      cpu_deploy_all_ships (fuelFor (create_fleet fleet_config)) map_game
        (create_fleet fleet_config) gaps symbol rs = (.ok g' fleet', rs') := by
  unfold check_fleet_fits_map at h
  simp only [oracleLoop] at h
  cases hdep : cpu_deploy_all_ships (fuelFor (create_fleet fleet_config))
      map_game (create_fleet fleet_config) gaps symbol rs with
  | mk res rs' =>
    rw [hdep] at h
    cases res with
    | out => simp at h
    | fail ga fa => simp at h
    | ok ga fa =>
      simp only [Option.some.injEq] at h
      exact ⟨fa, rs', by rw [h]⟩

/-! ## Claim C8 -/

/-- The property claim C8 asserts of a successful single-ship placement:
the coordinate list has exactly `size` entries and is the expansion of an
anchor drawn from the pattern-search candidate list, consecutive along the
chosen orientation axis. -/
def PlacementExpandsAnchor (g : Grid) (n : Nat) (symbol : Cell)
    (al : String) (coords : List Coord) : Prop :=
  coords.length = n ∧
  ∃ L r c,
    search_pattern g (patternDims al n).1 (patternDims al n).2 symbol = some L
    ∧ (r, c) ∈ L ∧
    ((al = "Single" ∧ n = 1 ∧ coords = [(r, c)]) ∨
     (al = "Horizontal" ∧ coords = (List.range n).map fun k => (r, c + k)) ∨
     (al = "Vertical" ∧ coords = (List.range n).map fun k => (r + k, c)))

/-- C8: For every ship placed successfully by Single-Ship Placement, the
produced coordinate list contains exactly `size` coordinates forming
consecutive cells along the chosen orientation axis starting at the selected
anchor (same row with increasing columns for Horizontal, same column with
increasing rows for Vertical, a single cell for size 1), and the anchor is
an element of the candidate list returned by Pattern Search. -/
theorem c8_single_ship_placement {g : Grid} {n : Nat} {symbol : Cell}
    {rs rs' : List Nat} {al : String} {coords : List Coord}
    (h : cpu_deploy_single_ship g n symbol rs = (.ok al coords, rs')) :
    PlacementExpandsAnchor g n symbol al coords := by
  obtain ⟨hlen, _, _⟩ := placement_shape h
  obtain ⟨L, r, c, hsp, hmem, rfl, hcases⟩ := single_ship_ok h
  refine ⟨hlen, L, r, c, hsp, hmem, ?_⟩
  rcases hcases with ⟨rfl, rfl⟩ | ⟨hhv, hn⟩
  · exact Or.inl ⟨rfl, rfl, create_coordinate_list_single r c⟩
  · rcases hhv with rfl | rfl
    · exact Or.inr (Or.inl ⟨rfl, create_coordinate_list_horizontal r c n⟩)
    · exact Or.inr (Or.inr ⟨rfl, create_coordinate_list_vertical r c n⟩)

/-- Witness for C8 at a concrete input: a size-2 ship on a fresh 1×2 grid,
random stream [1, 0] (Horizontal first, anchor index 0). -/
theorem c8_single_ship_placement_witness :
    PlacementExpandsAnchor (create_map 1 2 "?") 2 "?" "Horizontal"
      [(0, 0), (0, 1)] :=
  @c8_single_ship_placement (create_map 1 2 "?") 2 "?" [1, 0] []
    "Horizontal" [(0, 0), (0, 1)] (by decide)

/-! ## Claim C2: disjointness of deployed ships -/

/-- A cell content that marks occupied territory during deployment: the
hard-coded buffer mark "x" or a rendered (ANSI-colored) ship string. -/
def Blocked (cell : Cell) : Prop := cell = "x" ∨ escChar ∈ cell.data

/-- Without any shape assumption: the buffer pass only ever rewrites cells
to the buffer symbol. -/
theorem bufferWrites_subset {b : Cell} {g g' : Grid} {ws : List (Int × Int)}
    {ok : Bool} (h : bufferWrites b g ws = (g', ok)) :
    ∀ r c, getCell g' r c = getCell g r c ∨ getCell g' r c = some b := by
  induction ws generalizing g with
  | nil =>
    unfold bufferWrites at h
    obtain rfl : g = g' := congrArg Prod.fst h
    intro r c; exact Or.inl rfl
  | cons p rest ih =>
    intro r c
    unfold bufferWrites at h
    split at h
    · cases hset : setCell g p.1.toNat p.2.toNat b with
      | none =>
        rw [hset] at h
        obtain rfl : g = g' := congrArg Prod.fst h
        exact Or.inl rfl
      | some g1 =>
        rw [hset] at h
        rcases ih h r c with h1 | h1
        · by_cases hp : (r, c) = (p.1.toNat, p.2.toNat)
          · right
            rw [h1]
            have hr : r = p.1.toNat := congrArg Prod.fst hp
            have hc : c = p.2.toNat := congrArg Prod.snd hp
            rw [hr, hc]
            exact getCell_setCell_self hset
          · left
            rw [h1]
            exact getCell_setCell_other hset r c hp
        · exact Or.inr h1
    · exact ih h r c

theorem map_allocate_subset {g : Grid} {coords : List Coord} {b : Cell} :
    ∀ r c, getCell (map_allocate_empty_space_for_ship g coords b).1 r c
        = getCell g r c ∨
      getCell (map_allocate_empty_space_for_ship g coords b).1 r c = some b := by
  unfold map_allocate_empty_space_for_ship
  intro r c
  cases hbw : bufferWrites b g (blank_space.flatMap fun off =>
      coords.map fun coord => (off.1 + (coord.1 : Int), off.2 + (coord.2 : Int))) with
  | mk g' ok =>
    simpa using bufferWrites_subset hbw r c

/-- A freshly matched placement cell is not blocked. -/
theorem placement_cell_not_blocked {symbol : Cell} (hplain : PlainSymbol symbol)
    {ch : Char} (hch : ch ∈ symbol.data) : ¬ Blocked (String.mk [ch]) := by
  obtain ⟨hesc, hx⟩ := matched_cell_plain hplain hch
  rintro (h | h)
  · exact hx h
  · exact hesc h

/-- The loop invariant for claim C2: every deployed ship's cells read a
blocked content on the grid, and deployed ships are pairwise disjoint. -/
def Inv2 (g : Grid) (fleet : Fleet) : Prop :=
  (∀ s ∈ fleet, s.deployed = true →
    ∀ p ∈ s.cell_coordinates, ∃ cell, getCell g p.1 p.2 = some cell ∧ Blocked cell)
  ∧ (∀ (i j : Nat) (si sj : Ship), i ≠ j → fleet[i]? = some si →
      fleet[j]? = some sj → si.deployed = true → sj.deployed = true →
      ShipsDisjoint si sj)

/-- One-step preservation: committing one successful placement preserves
`Inv2`. -/
theorem inv2_step {g gb g1 : Grid} {fleet : Fleet} {i : Nat} {ship : Ship}
    {symbol : Cell} {rs rs' : List Nat} {alignment : String}
    {coords : List Coord} {symbols_list : List Cell} {gaps : Bool}
    (hplain : PlainSymbol symbol) (hinv : Inv2 g fleet)
    (hget : fleet[i]? = some ship)
    (hsingle : cpu_deploy_single_ship g ship.size symbol rs =
      (.ok alignment coords, rs'))
    (hsym : get_symbols (deployShip ship alignment coords) = some symbols_list)
    (hbuf : (if gaps then map_allocate_empty_space_for_ship g coords "x"
      else (g, true)) = (gb, true))
    (hshow : map_show_symbols gb coords symbols_list = (g1, true)) :
    Inv2 g1 (fleet.set i (deployShip ship alignment coords)) := by
  obtain ⟨hinvA, hinvB⟩ := hinv
  have hfree := (placement_shape hsingle).2.2
  -- a placement cell cannot belong to a deployed ship of the old fleet
  have havoid : ∀ s ∈ fleet, s.deployed = true →
      ∀ p ∈ coords, p ∉ s.cell_coordinates := by
    intro s hs hdep p hp hmem
    obtain ⟨cell, hcell, hblocked⟩ := hinvA s hs hdep p hmem
    obtain ⟨ch, hch, hcell'⟩ := hfree p hp
    rw [hcell] at hcell'
    obtain rfl : cell = String.mk [ch] := by simpa using hcell'
    exact placement_cell_not_blocked hplain hch hblocked
  -- the grid after the (optional) buffer pass: old content or "x"
  have hgb : ∀ r c, getCell gb r c = getCell g r c ∨ getCell gb r c = some "x" := by
    intro r c
    by_cases hgaps : gaps
    · rw [if_pos hgaps] at hbuf
      have := @map_allocate_subset g coords "x" r c
      rw [show (map_allocate_empty_space_for_ship g coords "x").1 = gb from
        congrArg Prod.fst hbuf] at this
      exact this
    · rw [if_neg hgaps] at hbuf
      obtain rfl : g = gb := congrArg Prod.fst hbuf
      exact Or.inl rfl
  -- symbol strings of the new ship all contain the escape character
  have hsyms : ∀ t ∈ symbols_list, escChar ∈ t.data := by
    obtain ⟨L, ar, ac, _, _, _, hcases⟩ := single_ship_ok hsingle
    have hal : (deployShip ship alignment coords).alignment = some "Horizontal"
        ∨ (deployShip ship alignment coords).alignment = some "Vertical"
        ∨ (deployShip ship alignment coords).size ≤ 1 := by
      have halfield := (deployShip_fields ship alignment coords).2.2.2
      have hsize := (deployShip_fields ship alignment coords).2.2.1
      rcases hcases with ⟨_, hone⟩ | ⟨hhv, _⟩
      · right; right; rw [hsize]; omega
      · rcases hhv with rfl | rfl
        · exact Or.inl halfield
        · exact Or.inr (Or.inl halfield)
    obtain ⟨syms0, hsym0, _, hesc⟩ := get_symbols_deployed hal
    rw [hsym0] at hsym
    obtain rfl : syms0 = symbols_list := by simpa using hsym
    exact hesc
  constructor
  · -- blocked cells of every deployed ship on the new grid
    intro s hs hdep p hp
    rcases List.mem_or_eq_of_mem_set hs with hmem | rfl
    · by_cases hpc : p ∈ coords
      · exact absurd hpc (fun hc => havoid s hmem hdep p hc hp)
      · obtain ⟨cell, hcell, hblocked⟩ := hinvA s hmem hdep p hp
        rw [map_show_symbols_untouched hshow p.1 p.2 hpc]
        rcases hgb p.1 p.2 with h1 | h1
        · exact ⟨cell, by rw [h1, hcell], hblocked⟩
        · exact ⟨"x", h1, Or.inl rfl⟩
    · have hpcoords : p ∈ coords := by
        have := (deployShip_fields ship alignment coords).2.1
        rwa [this] at hp
      obtain ⟨t, ht, hcell⟩ := map_show_symbols_mem hshow p hpcoords
      exact ⟨t, hcell, Or.inr (hsyms t ht)⟩
  · -- pairwise disjointness on the new fleet
    intro i' j' si sj hne hgi hgj hdi hdj
    have hilen : i < fleet.length := (List.getElem?_eq_some_iff.mp hget).1
    have hset_get : ∀ k (sk : Ship),
        (fleet.set i (deployShip ship alignment coords))[k]? = some sk →
        (k = i ∧ sk = deployShip ship alignment coords) ∨
        (k ≠ i ∧ fleet[k]? = some sk) := by
      intro k sk hk
      by_cases hki : k = i
      · subst hki
        rw [List.getElem?_set_eq_of_lt _ hilen] at hk
        exact Or.inl ⟨rfl, by simpa using hk.symm⟩
      · rw [List.getElem?_set_ne (fun hcon => hki hcon.symm)] at hk
        exact Or.inr ⟨hki, hk⟩
    have hnew_cc : (deployShip ship alignment coords).cell_coordinates = coords :=
      (deployShip_fields ship alignment coords).2.1
    rcases hset_get i' si hgi with ⟨rfl, rfl⟩ | ⟨hii, hgi'⟩
    · rcases hset_get j' sj hgj with ⟨rfl, _⟩ | ⟨hjj, hgj'⟩
      · exact absurd rfl hne
      · intro p hp
        rw [hnew_cc] at hp
        exact havoid sj (List.getElem?_mem hgj') hdj p hp
    · rcases hset_get j' sj hgj with ⟨rfl, rfl⟩ | ⟨hjj, hgj'⟩
      · intro p hp hpin
        rw [hnew_cc] at hpin
        exact havoid si (List.getElem?_mem hgi') hdi p hpin hp
      · exact hinvB i' j' si sj hne hgi' hgj' hdi hdj

/-- Running the deployment loop to success from an `Inv2` state yields a
fully deployed, pairwise disjoint fleet. -/
theorem deploy_loop_inv2 {fuel : Nat} {g : Grid} {fleet : Fleet} {gaps : Bool}
    {symbol : Cell} {rs rs' : List Nat} {G : Grid} {F : Fleet}
    (hplain : PlainSymbol symbol) (hinv : Inv2 g fleet)
    (hrun : cpu_deploy_all_ships fuel g fleet gaps symbol rs = (.ok G F, rs')) :
    (∀ s ∈ F, s.deployed = true) ∧
    (∀ (i j : Nat) (si sj : Ship), i ≠ j → F[i]? = some si →
      F[j]? = some sj → ShipsDisjoint si sj) := by
  induction fuel generalizing g fleet rs with
  | zero => simp [cpu_deploy_all_ships] at hrun
  | succ fuel ih =>
    rw [cpu_deploy_all_ships] at hrun
    split at hrun
    · rename_i hsel
      obtain ⟨rfl, rfl⟩ : map_show_only_ships g "x" symbol = G ∧ fleet = F := by
        constructor
        · exact congrArg (fun x => LoopRes.okGrid x.1) hrun
        · exact congrArg (fun x => LoopRes.okFleet x.1) hrun
      have hall := select_none_iff.mp hsel
      obtain ⟨hinvA, hinvB⟩ := hinv
      refine ⟨hall, ?_⟩
      intro i j si sj hne hgi hgj
      exact hinvB i j si sj hne hgi hgj (hall _ (List.getElem?_mem hgi))
        (hall _ (List.getElem?_mem hgj))
    · rename_i i ship hsel
      split at hrun
      · simp at hrun
      · simp at hrun
      · rename_i alignment coords rs1 hsingle
        split at hrun
        · simp at hrun
        · rename_i symbols_list hsym
          split at hrun
          · simp at hrun
          · rename_i gb hbuf
            split at hrun
            · simp at hrun
            · rename_i g1 hshow
              obtain ⟨hget, hdep⟩ := select_spec hsel
              exact ih (inv2_step hplain hinv hget hsingle hsym hbuf hshow) hrun

/-- C2 (amended): for every run of `cpu_deploy_all_ships` that returns a
completed grid, started on an all-undeployed fleet with a free symbol that
contains neither the ANSI escape character nor the letter x, the coordinate
sets of every two distinct ships in the final fleet are pairwise disjoint,
regardless of whether gap enforcement is enabled. -/
theorem c2_ships_pairwise_disjoint {fuel : Nat} {g G : Grid}
    {fleet F : Fleet} {gaps : Bool} {symbol : Cell} {rs rs' : List Nat}
    (hplain : PlainSymbol symbol) (hstart : AllUndeployed fleet)
    (hrun : cpu_deploy_all_ships fuel g fleet gaps symbol rs = (.ok G F, rs')) :
    List.Pairwise ShipsDisjoint F := by
  have hinv : Inv2 g fleet := by
    constructor
    · intro s hs hdep
      rw [hstart s hs] at hdep
      simp at hdep
    · intro i j si sj hne hgi hgj hdi hdj
      rw [hstart si (List.getElem?_mem hgi)] at hdi
      simp at hdi
  obtain ⟨hall, hdisj⟩ := deploy_loop_inv2 hplain hinv hrun
  rw [List.pairwise_iff_getElem]
  intro i j hi hj hij
  exact hdisj i j _ _ (by omega) (List.getElem?_eq_getElem hi)
    (List.getElem?_eq_getElem hj)

/-- Counterexample to C2 as stated: with the legitimate single-character
free symbol "x" (which collides with the hard-coded buffer mark), a
successful gap-enabled run on a fresh 1×5 grid places its first and third
tugboat on the same cell. -/
theorem c2_counterexample :
    (cpu_deploy_all_ships 4 (create_map 1 5 "x")
      [Ship.create "T" 1, Ship.create "T" 1, Ship.create "T" 1] true "x"
      [2, 1, 1]).1.isOk = true ∧
    ¬ List.Pairwise ShipsDisjoint
      (cpu_deploy_all_ships 4 (create_map 1 5 "x")
        [Ship.create "T" 1, Ship.create "T" 1, Ship.create "T" 1] true "x"
        [2, 1, 1]).1.okFleet := by
  decide

/-- Witness for C2 at a concrete input: two tugboats on a fresh 1×3 grid
with free symbol "?", gaps enabled, stream [0, 0]. -/
theorem c2_ships_pairwise_disjoint_witness :
    List.Pairwise ShipsDisjoint
      (cpu_deploy_all_ships 3 (create_map 1 3 "?")
        [Ship.create "T" 1, Ship.create "T" 1] true "?" [0, 0]).1.okFleet :=
  @c2_ships_pairwise_disjoint 3 (create_map 1 3 "?")
    ((cpu_deploy_all_ships 3 (create_map 1 3 "?")
      [Ship.create "T" 1, Ship.create "T" 1] true "?" [0, 0]).1.okGrid)
    [Ship.create "T" 1, Ship.create "T" 1]
    ((cpu_deploy_all_ships 3 (create_map 1 3 "?")
      [Ship.create "T" 1, Ship.create "T" 1] true "?" [0, 0]).1.okFleet)
    true "?" [0, 0]
    ((cpu_deploy_all_ships 3 (create_map 1 3 "?")
      [Ship.create "T" 1, Ship.create "T" 1] true "?" [0, 0]).2)
    (by decide) (by decide) (by decide)

/-! ## Claims C7, C10, C1, C6 -/

/-- C7: the Feasibility Oracle reports feasible — returns a grid rather than
`False` — exactly when a deployment attempt actually succeeded in placing
the entire fleet and produced that very grid; every failure inside
placement/deployment is a result value absorbed by the retry loop (modeled
by the total `LoopRes`, whose `fail` constructor also covers every caught
exception), so no exception reaches the oracle's caller. -/
theorem c7_no_false_positives {map_game : Grid} {fleet_config : Fleet}
    {symbol : Cell} {gaps : Bool} {rs : List Nat} {g' : Grid} :
    check_fleet_fits_map map_game fleet_config symbol gaps rs = some g' ↔
    ∃ fleet' rs',
      cpu_deploy_all_ships (fuelFor (create_fleet fleet_config)) map_game
        (create_fleet fleet_config) gaps symbol rs = (.ok g' fleet', rs') := by
  constructor
  · exact oracle_some_of_first_attempt
  · rintro ⟨fleet', rs', hdep⟩
    unfold check_fleet_fits_map
    simp only [oracleLoop]
    rw [hdep]

/-- C10: a single deployment attempt always terminates with a real outcome
(a completed grid or the failure value) once given the loop's natural fuel
bound — one iteration per ship — and the oracle is exactly a 50-attempt
retry loop around it. -/
theorem c10_attempt_terminates (g : Grid) (fleet : Fleet) (gaps : Bool)
    (symbol : Cell) (rs : List Nat) :
    (cpu_deploy_all_ships (fuelFor fleet) g fleet gaps symbol rs).1.isOut
      = false ∧
    check_fleet_fits_map g fleet symbol gaps rs =
      oracleLoop 50 (some g) fleet symbol gaps rs := by
  refine ⟨?_, rfl⟩
  apply deploy_no_out
  have := undeployedCount_le_length fleet
  unfold fuelFor
  omega

/-- C1 (code bug): a 3×3 grid with fleet {Cruiser(3), TugBoat(1)}, gaps on.
With random stream [1,1,1,0,0] the first attempt places the cruiser in the
middle row and fails on the tugboat; because the oracle aliases its grid
variable and feeds the failure value `False` into every later attempt, it
reports infeasible — although a genuinely fresh second attempt consuming the
remaining stream [1,0,0] succeeds. -/
theorem c1_attempts_not_fresh_eval :
    check_fleet_fits_map (create_map 3 3 "?")
      [Ship.create "Cruiser" 3, Ship.create "Tug Boat" 1] "?" true
      [1, 1, 1, 0, 0] = none ∧
    (cpu_deploy_all_ships
      (fuelFor (create_fleet [Ship.create "Cruiser" 3, Ship.create "Tug Boat" 1]))
      (create_map 3 3 "?")
      (create_fleet [Ship.create "Cruiser" 3, Ship.create "Tug Boat" 1]) true "?"
      [1, 0, 0]).1.isOk = true := by
  decide

/-- C6 (code bug): on a feasible 1×1 input the caller's grid object ends up
holding the deployed grid — the oracle's returned grid is the caller's own
grid, mutated in place — so the caller's grid is not unchanged. -/
theorem c6_caller_grid_mutated_eval :
    check_fleet_fits_map_grid_after (create_map 1 1 "?")
      [Ship.create "Tug Boat" 1] "?" true [0] ≠ create_map 1 1 "?" ∧
    check_fleet_fits_map (create_map 1 1 "?") [Ship.create "Tug Boat" 1] "?"
      true [0] =
      some (check_fleet_fits_map_grid_after (create_map 1 1 "?")
        [Ship.create "Tug Boat" 1] "?" true [0]) := by
  decide

/-! ## Claim C5 -/

/-- The amended C5 contract of the buffer pass on a well-formed grid: the
pass succeeds and writes the buffer symbol into exactly the in-bounds closed
8-neighborhood of the ship cells — immediate 8-neighbors and the ship cells
themselves — overwriting whatever content was there; every other cell is
untouched. -/
def BufferPassSpec (hh ww : Nat) (g : Grid) (coords : List Coord)
    (b : Cell) : Prop :=
  (map_allocate_empty_space_for_ship g coords b).2 = true ∧
  ∀ r c, getCell (map_allocate_empty_space_for_ship g coords b).1 r c =
    if nearShip coords r c ∧ r < hh ∧ c < ww then some b else getCell g r c

/-- C5 (amended): on every well-formed grid the Buffer Allocation pass
writes the buffer symbol into every in-bounds cell of the closed
8-neighborhood of the ship cells, unconditionally overwriting the previous
content (ship-body symbols included), and touches nothing else. -/
theorem c5_buffer_pass {hh ww : Nat} {g : Grid} {coords : List Coord}
    {b : Cell} (hg : Rect hh ww g) : BufferPassSpec hh ww g coords b :=
  map_allocate_spec hg

/-- Counterexample to C5 as stated: cell (0,0) holds a rendered ship-body
string, is an immediate 8-neighbor of the ship cell (1,1), and the pass
overwrites it with the buffer symbol. -/
theorem c5_counterexample :
    getCell [[colorDarkYellow ++ symSingle ++ colorReset, "?"], ["?", "?"]]
      0 0 = some (colorDarkYellow ++ symSingle ++ colorReset) ∧
    map_allocate_empty_space_for_ship
      [[colorDarkYellow ++ symSingle ++ colorReset, "?"], ["?", "?"]]
      [(1, 1)] "x" = ([["x", "x"], ["x", "x"]], true) ∧
    colorDarkYellow ++ symSingle ++ colorReset ≠ "x" := by
  decide

/-- Witness for C5 at a concrete input: a 2×2 grid of "?" and a single ship
cell at (0,0). -/
theorem c5_buffer_pass_witness :
    BufferPassSpec 2 2 (create_map 2 2 "?") [(0, 0)] "x" :=
  c5_buffer_pass (by decide)

/-! ## Claim C4 -/

/-- Modelled from the spec's words for Pattern Search: every coordinate
(r, c) such that the h×w block anchored at (r, c) lies entirely within grid
bounds and every cell in the block holds the free symbol, listed in
row-major scan order. -/
def spec_search_pattern (g : Grid) (h w : Nat) (free : Cell) : List Coord :=
  ((List.range g.length).flatMap fun r =>
    (List.range (g.headD []).length).map fun c => (r, c)).filter fun rc =>
    decide (rc.1 + h ≤ g.length ∧ rc.2 + w ≤ (g.headD []).length ∧
      ∀ i < h, ∀ j < w, getCell g (rc.1 + i) (rc.2 + j) = some free)

theorem flatten_replicate_singleton (w : Nat) (ch : Char) :
    (List.replicate w [ch]).flatten = List.replicate w ch := by
  induction w with
  | zero => simp
  | succ n ih => simp [List.replicate_succ, ih]

theorem checkBlock_singleton {g : Grid} {w : Nat} {ch : Char} {r c : Nat}
    {idxs : List (Nat × Nat)} (hj : ∀ p ∈ idxs, p.2 < w)
    (hcells : ∀ p ∈ idxs, ∃ cell, getCell g (r + p.1) (c + p.2) = some cell) :
    checkBlock g (List.replicate w ch) r c idxs =
      some (decide (∀ p ∈ idxs,
        getCell g (r + p.1) (c + p.2) = some (String.mk [ch]))) := by
  induction idxs with
  | nil => simp [checkBlock]
  | cons q rest ih =>
    obtain ⟨cell, hcell⟩ := hcells q (List.mem_cons_self _ _)
    have hq2 : q.2 < w := hj q (List.mem_cons_self _ _)
    have hpat : (List.replicate w ch)[q.2]? = some ch := by
      rw [List.getElem?_eq_getElem (by simpa using hq2)]
      simp
    have hred : checkBlock g (List.replicate w ch) r c (q :: rest) =
        match getCell g (r + q.1) (c + q.2) with
        | none => none
        | some cell =>
          match (List.replicate w ch)[q.2]? with
          | none => none
          | some pch =>
            if cell = String.mk [pch] then
              checkBlock g (List.replicate w ch) r c rest
            else some false := by
      cases q with
      | mk qi qj => rfl
    rw [hred, hcell, hpat]
    dsimp only
    by_cases heq : cell = String.mk [ch]
    · rw [if_pos heq]
      rw [ih (fun p hp => hj p (List.mem_cons_of_mem _ hp))
        (fun p hp => hcells p (List.mem_cons_of_mem _ hp))]
      congr 1
      have hhead : getCell g (r + q.1) (c + q.2) = some (String.mk [ch]) := by
        rw [hcell, heq]
      simp [List.forall_mem_cons, hhead]
    · rw [if_neg heq]
      have hhead : ¬ getCell g (r + q.1) (c + q.2) = some (String.mk [ch]) := by
        rw [hcell]
        intro hcon
        exact heq (by simpa using hcon)
      simp [List.forall_mem_cons, hhead]

theorem searchScan_eval {g : Grid} {patRow : List Char} {h w : Nat}
    {anchors : List Coord}
    (hall : ∀ rc ∈ anchors,
      ∃ b, checkBlock g patRow rc.1 rc.2 (blockIdxs h w) = some b) :
    searchScan g patRow h w anchors = some (anchors.filter fun rc =>
      decide (checkBlock g patRow rc.1 rc.2 (blockIdxs h w) = some true)) := by
  induction anchors with
  | nil => rfl
  | cons a rest ih =>
    obtain ⟨b, hb⟩ := hall a (List.mem_cons_self _ _)
    unfold searchScan
    rw [hb, ih (fun rc hrc => hall rc (List.mem_cons_of_mem _ hrc))]
    cases b with
    | true => simp [List.filter_cons, hb]
    | false =>
      have : ¬ checkBlock g patRow a.1 a.2 (blockIdxs h w) = some true := by
        rw [hb]; simp
      simp [List.filter_cons, this]

/-- Shrinking a row-major coordinate enumeration does not change a filter
whose predicate forces membership in the smaller enumeration. -/
theorem filter_prodRange_shrink {A B A' B' : Nat} (hA : A' ≤ A) (hB : B' ≤ B)
    (p : Coord → Bool) (hp : ∀ rc, p rc = true → rc.1 < A' ∧ rc.2 < B') :
    (((List.range A).flatMap fun r => (List.range B).map fun c => (r, c)).filter p)
    = ((List.range A').flatMap fun r => (List.range B').map fun c => (r, c)).filter p := by
  have hrow : ∀ r, (((List.range B).map fun c => (r, c)).filter p)
      = ((List.range B').map fun c => (r, c)).filter p ∨
      ((((List.range B).map fun c => (r, c)).filter p) = [] ∧ A' ≤ r) := by
    intro r
    by_cases hr : r < A'
    · left
      obtain ⟨k, rfl⟩ : ∃ k, B = B' + k := ⟨B - B', by omega⟩
      rw [List.range_add B' k, List.map_append, List.filter_append]
      have : (((List.range k).map (fun x => B' + x)).map fun c => (r, c)).filter p = [] := by
        rw [List.filter_eq_nil_iff]
        intro a ha
        simp only [List.map_map, List.mem_map] at ha
        obtain ⟨x, _, rfl⟩ := ha
        intro hpa
        have := (hp _ hpa).2
        simp at this
      rw [this, List.append_nil]
    · right
      refine ⟨?_, by omega⟩
      rw [List.filter_eq_nil_iff]
      intro a ha
      obtain ⟨x, _, rfl⟩ := List.mem_map.mp ha
      intro hpa
      have := (hp _ hpa).1
      simp at this
      omega
  rw [List.filter_flatMap, List.filter_flatMap]
  obtain ⟨k, rfl⟩ : ∃ k, A = A' + k := ⟨A - A', by omega⟩
  rw [List.range_add A' k, List.flatMap_append]
  have hhigh : ((List.range k).map (fun x => A' + x)).flatMap
      (fun r => ((List.range B).map fun c => (r, c)).filter p) = [] := by
    rw [List.flatMap_eq_nil_iff]
    intro r hr
    simp only [List.mem_map] at hr
    obtain ⟨x, _, rfl⟩ := hr
    rcases hrow (A' + x) with hc | ⟨hc, _⟩
    · rw [hc, List.filter_eq_nil_iff]
      intro a ha
      obtain ⟨y, _, rfl⟩ := List.mem_map.mp ha
      intro hpa
      have := (hp _ hpa).1
      simp at this
    · exact hc
  rw [hhigh, List.append_nil]
  congr 1
  funext r
  rcases hrow r with hc | ⟨hc, hge⟩
  · exact hc
  · rw [hc]
    symm
    rw [List.filter_eq_nil_iff]
    intro a ha
    obtain ⟨y, _, rfl⟩ := List.mem_map.mp ha
    intro hpa
    have := (hp _ hpa)
    omega

/-- C4 (amended): on a well-formed nonempty grid, with positive target
dimensions and a single-character free symbol, `search_pattern` returns —
never raising — exactly the spec's row-major list of anchors of in-bounds
all-free blocks; in particular `some []` (not an error) when no block
qualifies, including when h or w exceeds the grid dimensions. -/
theorem c4_search_pattern_matches_spec {hh ww : Nat} {g : Grid} {h w : Nat}
    {symbol : Cell} (hg : Rect hh ww g) (hpos : 0 < hh) (hh1 : 1 ≤ h)
    (hw1 : 1 ≤ w) (hchar : symbol.data.length = 1) :
    search_pattern g h w symbol = some (spec_search_pattern g h w symbol) := by
  obtain ⟨ch, hch⟩ := List.length_eq_one.mp hchar
  have hsym : String.mk [ch] = symbol := by
    cases symbol with
    | mk d => rw [show d = [ch] from hch]
  obtain ⟨row0, hrow0q, hrow0len⟩ := hg.rows (w := ww) hpos
  have hhead : g.head? = some row0 := by
    cases g with
    | nil => simp at hrow0q
    | cons a l => simpa using hrow0q
  have hheadD : g.headD [] = row0 := by
    cases g with
    | nil => simp at hrow0q
    | cons a l =>
      simp only [List.head?_cons, Option.some.injEq] at hhead
      simp [hhead]
  have hlen : g.length = hh := hg.1
  -- the decidable spec predicate, over the full coordinate range
  have hspec : spec_search_pattern g h w symbol =
      (((List.range hh).flatMap fun r => (List.range ww).map fun c => (r, c)).filter
        fun rc => decide (rc.1 + h ≤ hh ∧ rc.2 + w ≤ ww ∧
          ∀ i < h, ∀ j < w, getCell g (rc.1 + i) (rc.2 + j) = some symbol)) := by
    unfold spec_search_pattern
    rw [hheadD, hrow0len, hlen]
  -- evaluate the code side
  unfold search_pattern
  rw [hhead]
  dsimp only
  rw [hch, flatten_replicate_singleton, hlen, hrow0len]
  have hcb : ∀ rc ∈ searchAnchors hh ww h w,
      checkBlock g (List.replicate w ch) rc.1 rc.2 (blockIdxs h w) =
        some (decide (∀ p ∈ blockIdxs h w,
          getCell g (rc.1 + p.1) (rc.2 + p.2) = some (String.mk [ch]))) := by
    intro rc hrc
    obtain ⟨hb1, hb2⟩ := mem_searchAnchors.mp hrc
    apply checkBlock_singleton
    · intro p hp
      exact (mem_blockIdxs.mp hp).2
    · intro p hp
      obtain ⟨hp1, hp2⟩ := mem_blockIdxs.mp hp
      exact hg.getCell_isSome (by omega) (by omega)
  rw [searchScan_eval (fun rc hrc => ⟨_, hcb rc hrc⟩)]
  rw [hspec]
  congr 1
  -- predicates agree on the anchor list, and the spec filter shrinks to it
  have hagree : ∀ rc ∈ searchAnchors hh ww h w,
      (decide (checkBlock g (List.replicate w ch) rc.1 rc.2 (blockIdxs h w)
          = some true))
      = decide (rc.1 + h ≤ hh ∧ rc.2 + w ≤ ww ∧
          ∀ i < h, ∀ j < w, getCell g (rc.1 + i) (rc.2 + j) = some symbol) := by
    intro rc hrc
    obtain ⟨hb1, hb2⟩ := mem_searchAnchors.mp hrc
    rw [hcb rc hrc, decide_eq_decide]
    constructor
    · intro hsome
      have hP1 : ∀ p ∈ blockIdxs h w,
          getCell g (rc.1 + p.1) (rc.2 + p.2) = some (String.mk [ch]) :=
        of_decide_eq_true (by simpa using hsome)
      refine ⟨hb1, hb2, ?_⟩
      intro i hi j hj
      rw [← hsym]
      exact hP1 (i, j) (mem_blockIdxs.mpr ⟨hi, hj⟩)
    · rintro ⟨_, _, hall⟩
      have hP1 : ∀ p ∈ blockIdxs h w,
          getCell g (rc.1 + p.1) (rc.2 + p.2) = some (String.mk [ch]) := by
        intro p hp
        obtain ⟨hp1, hp2⟩ := mem_blockIdxs.mp hp
        rw [hsym]
        exact hall p.1 hp1 p.2 hp2
      simp [decide_eq_true hP1]
  by_cases hfit : h ≤ hh ∧ w ≤ ww
  · have hanch : searchAnchors hh ww h w =
        (List.range (hh - h + 1)).flatMap fun r =>
          (List.range (ww - w + 1)).map fun c => (r, c) := by
      unfold searchAnchors pyRangeLen
      rw [if_pos hfit.1, if_pos hfit.2]
    rw [@filter_prodRange_shrink hh ww (hh - h + 1) (ww - w + 1)
      (by omega) (by omega) _ ?bounds]
    case bounds =>
      intro rc hrc
      rw [decide_eq_true_eq] at hrc
      exact ⟨by omega, by omega⟩
    rw [← hanch]
    exact List.filter_congr hagree
  · have hanch : searchAnchors hh ww h w = [] := by
      unfold searchAnchors pyRangeLen
      rcases (by omega : ¬ h ≤ hh ∨ ¬ w ≤ ww) with hcon | hcon
      · rw [if_neg hcon]; rfl
      · rw [if_neg hcon]
        simp
    rw [hanch]
    simp only [List.filter_nil]
    symm
    rw [List.filter_eq_nil_iff]
    intro rc _
    rw [decide_eq_true_eq]
    rintro ⟨h1, h2, _⟩
    omega

/-- Counterexample to C4 as stated: with the two-character free symbol "ab"
on the 1×1 grid [["ab"]], the single cell holds the free symbol, so the
spec demands the anchor (0,0); the code compares the cell against single
characters of the tiled symbol string and finds nothing. -/
theorem c4_counterexample :
    search_pattern [["ab"]] 1 1 "ab" = some [] ∧
    spec_search_pattern [["ab"]] 1 1 "ab" = [(0, 0)] := by
  decide

/-- Witness for C4 at a concrete input: searching a 1×2 all-free block on a
fresh 2×2 grid of "?". -/
theorem c4_search_pattern_matches_spec_witness :
    search_pattern (create_map 2 2 "?") 1 2 "?" =
      some (spec_search_pattern (create_map 2 2 "?") 1 2 "?") :=
  @c4_search_pattern_matches_spec 2 2 (create_map 2 2 "?") 1 2 "?"
    (by decide) (by decide) (by decide) (by decide) (by decide)

/-! ## Claim C3: gap enforcement keeps ships apart -/

/-- No cell of `s` is within the closed 8-neighborhood of a cell of `t`
(strictly stronger than non-adjacency: it also forbids shared cells). -/
def ShipsApart (s t : Ship) : Prop :=
  ∀ p ∈ s.cell_coordinates, ∀ q ∈ t.cell_coordinates, ¬ near p q

theorem near_symm {p q : Coord} (h : near p q) : near q p := by
  obtain ⟨h1, h2⟩ := h
  unfold near at *
  omega

theorem ShipsApart.not_adjacent {s t : Ship} (h : ShipsApart s t) :
    ShipsNotAdjacent s t := by
  intro p hp q hq hadj
  exact h p hp q hq hadj.2

/-- The loop invariant for claim C3 (gaps enabled): the grid stays
well-formed, deployed cells are in bounds, the whole in-bounds closed
8-neighborhood of every deployed ship reads a blocked content, and deployed
ships are pairwise apart. -/
def Inv3 (hh ww : Nat) (g : Grid) (fleet : Fleet) : Prop :=
  Rect hh ww g ∧
  (∀ s ∈ fleet, s.deployed = true →
    ∀ p ∈ s.cell_coordinates, p.1 < hh ∧ p.2 < ww) ∧
  (∀ s ∈ fleet, s.deployed = true → ∀ r c, r < hh → c < ww →
    nearShip s.cell_coordinates r c →
    ∃ cell, getCell g r c = some cell ∧ Blocked cell) ∧
  (∀ (i j : Nat) (si sj : Ship), i ≠ j → fleet[i]? = some si →
    fleet[j]? = some sj → si.deployed = true → sj.deployed = true →
    ShipsApart si sj)

/-- One-step preservation of `Inv3` when gap enforcement runs. -/
theorem inv3_step {hh ww : Nat} {g gb g1 : Grid} {fleet : Fleet} {i : Nat}
    {ship : Ship} {symbol : Cell} {rs rs' : List Nat} {alignment : String}
    {coords : List Coord} {symbols_list : List Cell}
    (hplain : PlainSymbol symbol) (hinv : Inv3 hh ww g fleet)
    (hget : fleet[i]? = some ship)
    (hsingle : cpu_deploy_single_ship g ship.size symbol rs =
      (.ok alignment coords, rs'))
    (hsym : get_symbols (deployShip ship alignment coords) = some symbols_list)
    (hbuf : map_allocate_empty_space_for_ship g coords "x" = (gb, true))
    (hshow : map_show_symbols gb coords symbols_list = (g1, true)) :
    Inv3 hh ww g1 (fleet.set i (deployShip ship alignment coords)) := by
  obtain ⟨hrect, hbounds, hnbhd, hapart⟩ := hinv
  have hfree := (placement_shape hsingle).2.2
  have hcbounds := placement_bounds hrect hsingle
  -- placement cells are not near any deployed ship of the old fleet
  have havoid : ∀ s ∈ fleet, s.deployed = true →
      ∀ p ∈ coords, ¬ nearShip s.cell_coordinates p.1 p.2 := by
    intro s hs hdep p hp hnear
    obtain ⟨hlt1, hlt2⟩ := hcbounds p hp
    obtain ⟨cell, hcell, hblocked⟩ := hnbhd s hs hdep p.1 p.2 hlt1 hlt2 hnear
    obtain ⟨ch, hch, hcell'⟩ := hfree p hp
    rw [hcell] at hcell'
    obtain rfl : cell = String.mk [ch] := by simpa using hcell'
    exact placement_cell_not_blocked hplain hch hblocked
  have hgb_spec := @map_allocate_spec hh ww g coords "x" hrect
  have hgb_eq : (map_allocate_empty_space_for_ship g coords "x").1 = gb :=
    congrArg Prod.fst hbuf
  have hgb_rect : Rect hh ww gb := by
    rw [← hgb_eq]
    exact map_allocate_rect hrect
  have hg1_rect : Rect hh ww g1 := map_show_symbols_rect hgb_rect hshow
  have hsyms : ∀ t ∈ symbols_list, escChar ∈ t.data := by
    obtain ⟨L, ar, ac, _, _, _, hcases⟩ := single_ship_ok hsingle
    have hal : (deployShip ship alignment coords).alignment = some "Horizontal"
        ∨ (deployShip ship alignment coords).alignment = some "Vertical"
        ∨ (deployShip ship alignment coords).size ≤ 1 := by
      have halfield := (deployShip_fields ship alignment coords).2.2.2
      have hsize := (deployShip_fields ship alignment coords).2.2.1
      rcases hcases with ⟨_, hone⟩ | ⟨hhv, _⟩
      · right; right; rw [hsize]; omega
      · rcases hhv with rfl | rfl
        · exact Or.inl halfield
        · exact Or.inr (Or.inl halfield)
    obtain ⟨syms0, hsym0, _, hesc⟩ := get_symbols_deployed hal
    rw [hsym0] at hsym
    obtain rfl : syms0 = symbols_list := by simpa using hsym
    exact hesc
  -- any in-bounds cell of the new grid near the new coords is blocked
  have hnew_nbhd : ∀ r c, r < hh → c < ww → nearShip coords r c →
      ∃ cell, getCell g1 r c = some cell ∧ Blocked cell := by
    intro r c hr hc hnear
    by_cases hrc : (r, c) ∈ coords
    · obtain ⟨t, ht, hcell⟩ := map_show_symbols_mem hshow (r, c) hrc
      exact ⟨t, hcell, Or.inr (hsyms t ht)⟩
    · rw [map_show_symbols_untouched hshow r c hrc]
      have := hgb_spec.2 r c
      rw [hgb_eq] at this
      rw [this, if_pos ⟨hnear, hr, hc⟩]
      exact ⟨"x", rfl, Or.inl rfl⟩
  have hnew_cc : (deployShip ship alignment coords).cell_coordinates = coords :=
    (deployShip_fields ship alignment coords).2.1
  have hilen : i < fleet.length := (List.getElem?_eq_some_iff.mp hget).1
  have hset_get : ∀ k (sk : Ship),
      (fleet.set i (deployShip ship alignment coords))[k]? = some sk →
      (k = i ∧ sk = deployShip ship alignment coords) ∨
      (k ≠ i ∧ fleet[k]? = some sk) := by
    intro k sk hk
    by_cases hki : k = i
    · subst hki
      rw [List.getElem?_set_eq_of_lt _ hilen] at hk
      exact Or.inl ⟨rfl, by simpa using hk.symm⟩
    · rw [List.getElem?_set_ne (fun hcon => hki hcon.symm)] at hk
      exact Or.inr ⟨hki, hk⟩
  refine ⟨hg1_rect, ?_, ?_, ?_⟩
  · -- bounds
    intro s hs hdep p hp
    rcases List.mem_or_eq_of_mem_set hs with hmem | rfl
    · exact hbounds s hmem hdep p hp
    · rw [hnew_cc] at hp
      exact hcbounds p hp
  · -- blocked neighborhoods
    intro s hs hdep r c hr hc hnear
    rcases List.mem_or_eq_of_mem_set hs with hmem | rfl
    · by_cases hrc : (r, c) ∈ coords
      · obtain ⟨t, ht, hcell⟩ := map_show_symbols_mem hshow (r, c) hrc
        exact ⟨t, hcell, Or.inr (hsyms t ht)⟩
      · rw [map_show_symbols_untouched hshow r c hrc]
        have hb := hgb_spec.2 r c
        rw [hgb_eq] at hb
        obtain ⟨cell, hcell, hblocked⟩ := hnbhd s hmem hdep r c hr hc hnear
        by_cases hnearnew : nearShip coords r c
        · rw [hb, if_pos ⟨hnearnew, hr, hc⟩]
          exact ⟨"x", rfl, Or.inl rfl⟩
        · rw [hb, if_neg (fun hcon => hnearnew hcon.1)]
          exact ⟨cell, hcell, hblocked⟩
    · rw [hnew_cc] at hnear
      exact hnew_nbhd r c hr hc hnear
  · -- pairwise apart
    intro i' j' si sj hne hgi hgj hdi hdj
    rcases hset_get i' si hgi with ⟨rfl, rfl⟩ | ⟨hii, hgi'⟩
    · rcases hset_get j' sj hgj with ⟨rfl, _⟩ | ⟨hjj, hgj'⟩
      · exact absurd rfl hne
      · intro p hp q hq hnearpq
        rw [hnew_cc] at hp
        apply havoid sj (List.getElem?_mem hgj') hdj p hp
        exact ⟨q, hq, hnearpq⟩
    · rcases hset_get j' sj hgj with ⟨rfl, rfl⟩ | ⟨hjj, hgj'⟩
      · intro p hp q hq hnearpq
        rw [hnew_cc] at hq
        apply havoid si (List.getElem?_mem hgi') hdi q hq
        exact ⟨p, hp, near_symm hnearpq⟩
      · exact hapart i' j' si sj hne hgi' hgj' hdi hdj

/-- Running the gap-enabled deployment loop to success from an `Inv3` state
yields a fully deployed fleet of pairwise apart ships. -/
theorem deploy_loop_inv3 {fuel : Nat} {hh ww : Nat} {g : Grid}
    {fleet : Fleet} {symbol : Cell} {rs rs' : List Nat} {G : Grid} {F : Fleet}
    (hplain : PlainSymbol symbol) (hinv : Inv3 hh ww g fleet)
    (hrun : cpu_deploy_all_ships fuel g fleet true symbol rs = (.ok G F, rs')) :
    (∀ s ∈ F, s.deployed = true) ∧
    (∀ (i j : Nat) (si sj : Ship), i ≠ j → F[i]? = some si →
      F[j]? = some sj → ShipsApart si sj) := by
  induction fuel generalizing g fleet rs with
  | zero => simp [cpu_deploy_all_ships] at hrun
  | succ fuel ih =>
    rw [cpu_deploy_all_ships] at hrun
    split at hrun
    · rename_i hsel
      obtain ⟨rfl, rfl⟩ : map_show_only_ships g "x" symbol = G ∧ fleet = F := by
        constructor
        · exact congrArg (fun x => LoopRes.okGrid x.1) hrun
        · exact congrArg (fun x => LoopRes.okFleet x.1) hrun
      have hall := select_none_iff.mp hsel
      obtain ⟨_, _, _, hapart⟩ := hinv
      refine ⟨hall, ?_⟩
      intro i j si sj hne hgi hgj
      exact hapart i j si sj hne hgi hgj (hall _ (List.getElem?_mem hgi))
        (hall _ (List.getElem?_mem hgj))
    · rename_i i ship hsel
      split at hrun
      · simp at hrun
      · simp at hrun
      · rename_i alignment coords rs1 hsingle
        split at hrun
        · simp at hrun
        · rename_i symbols_list hsym
          split at hrun
          · simp at hrun
          · rename_i gb hbuf
            split at hrun
            · simp at hrun
            · rename_i g1 hshow
              obtain ⟨hget, hdep⟩ := select_spec hsel
              have hbuf' : map_allocate_empty_space_for_ship g coords "x"
                  = (gb, true) := by
                simpa using hbuf
              exact ih (inv3_step hplain hinv hget hsingle hsym hbuf' hshow) hrun

/-- C3 (amended): for every gap-enabled run of `cpu_deploy_all_ships` on a
well-formed grid that returns a completed grid, started on an
all-undeployed fleet with a free symbol containing neither the ANSI escape
character nor the letter x, no coordinate of one ship is 8-adjacent (edge-
or corner-adjacent, including diagonals) to any coordinate of any other
ship. -/
theorem c3_gaps_keep_ships_apart {fuel hh ww : Nat} {g G : Grid}
    {fleet F : Fleet} {symbol : Cell} {rs rs' : List Nat}
    (hg : Rect hh ww g) (hplain : PlainSymbol symbol)
    (hstart : AllUndeployed fleet)
    (hrun : cpu_deploy_all_ships fuel g fleet true symbol rs = (.ok G F, rs')) :
    List.Pairwise ShipsNotAdjacent F := by
  have hinv : Inv3 hh ww g fleet := by
    refine ⟨hg, ?_, ?_, ?_⟩
    · intro s hs hdep
      rw [hstart s hs] at hdep
      simp at hdep
    · intro s hs hdep
      rw [hstart s hs] at hdep
      simp at hdep
    · intro i j si sj hne hgi hgj hdi hdj
      rw [hstart si (List.getElem?_mem hgi)] at hdi
      simp at hdi
  obtain ⟨hall, hapart⟩ := deploy_loop_inv3 hplain hinv hrun
  rw [List.pairwise_iff_getElem]
  intro i j hi hj hij
  exact (hapart i j _ _ (by omega) (List.getElem?_eq_getElem hi)
    (List.getElem?_eq_getElem hj)).not_adjacent

/-- Counterexample to C3 as stated: with the single-character free symbol
"x" (colliding with the buffer mark) a successful gap-enabled run on a
fresh 1×3 grid places two tugboats on edge-adjacent cells. -/
theorem c3_counterexample :
    (cpu_deploy_all_ships 3 (create_map 1 3 "x")
      [Ship.create "T" 1, Ship.create "T" 1] true "x" [0, 0]).1.isOk = true ∧
    ¬ List.Pairwise ShipsNotAdjacent
      (cpu_deploy_all_ships 3 (create_map 1 3 "x")
        [Ship.create "T" 1, Ship.create "T" 1] true "x" [0, 0]).1.okFleet := by
  decide

/-- Witness for C3 at a concrete input: two tugboats on a fresh 1×3 grid of
"?", gaps enabled, stream [0, 0] — they end on the two opposite corners. -/
theorem c3_gaps_keep_ships_apart_witness :
    List.Pairwise ShipsNotAdjacent
      (cpu_deploy_all_ships 3 (create_map 1 3 "?")
        [Ship.create "T" 1, Ship.create "T" 1] true "?" [0, 0]).1.okFleet :=
  @c3_gaps_keep_ships_apart 3 1 3 (create_map 1 3 "?")
    ((cpu_deploy_all_ships 3 (create_map 1 3 "?")
      [Ship.create "T" 1, Ship.create "T" 1] true "?" [0, 0]).1.okGrid)
    [Ship.create "T" 1, Ship.create "T" 1]
    ((cpu_deploy_all_ships 3 (create_map 1 3 "?")
      [Ship.create "T" 1, Ship.create "T" 1] true "?" [0, 0]).1.okFleet)
    "?" [0, 0]
    ((cpu_deploy_all_ships 3 (create_map 1 3 "?")
      [Ship.create "T" 1, Ship.create "T" 1] true "?" [0, 0]).2)
    (by decide) (by decide) (by decide) (by decide)

/-! ## Claim C9: the returned grid shows only ships -/

theorem create_map_rect (h w : Nat) (symbol : Cell) :
    Rect h w (create_map h w symbol) := by
  constructor
  · simp [create_map]
  · intro row hrow
    rw [List.eq_of_mem_replicate hrow]
    simp

theorem create_map_getCell {h w r c : Nat} {symbol : Cell} (hr : r < h)
    (hc : c < w) : getCell (create_map h w symbol) r c = some symbol := by
  unfold create_map getCell
  rw [List.getElem?_eq_getElem (by simpa using hr)]
  simp only [List.getElem_replicate, Option.some_bind]
  rw [List.getElem?_eq_getElem (by simpa using hc)]
  simp

theorem plain_symbol_ne_x {symbol : Cell} (hplain : PlainSymbol symbol) :
    symbol ≠ "x" := by
  intro hcon
  apply hplain.2
  rw [hcon]
  decide

/-- The property claim C9 asserts of a successful Fleet Deployment Loop run:
every ship is deployed, the returned grid contains no buffer mark, every
cell of a deployed ship holds that ship's rendered body symbol at the
matching position, and every other cell holds the free symbol. -/
def GridShowsOnlyShips (hh ww : Nat) (symbol : Cell) (G : Grid)
    (F : Fleet) : Prop :=
  (∀ s ∈ F, s.deployed = true) ∧
  (∀ r c cell, getCell G r c = some cell → cell ≠ "x") ∧
  (∀ s ∈ F, ∀ (k : Nat) (p : Coord), s.cell_coordinates[k]? = some p →
    getCell G p.1 p.2 = ((get_symbols s).getD [])[k]?) ∧
  (∀ r c, r < hh → c < ww → (∀ s ∈ F, (r, c) ∉ s.cell_coordinates) →
    getCell G r c = some symbol)

/-- The loop invariant for claim C9: the grid stays well-formed; deployed
cells sit in bounds and hold exactly their ship's rendered symbols (whose
strings all carry the escape character); with gaps on, the closed
neighborhoods of deployed ships are blocked and deployed ships are apart;
deployed ships are always pairwise disjoint; every in-bounds cell not owned
by a deployed ship holds the free symbol or the buffer mark. -/
def Inv9 (hh ww : Nat) (symbol : Cell) (gaps : Bool) (g : Grid)
    (fleet : Fleet) : Prop :=
  Rect hh ww g ∧
  (∀ s ∈ fleet, s.deployed = true →
    ∀ p ∈ s.cell_coordinates, p.1 < hh ∧ p.2 < ww) ∧
  (∀ s ∈ fleet, s.deployed = true →
    ∀ (k : Nat) (p : Coord), s.cell_coordinates[k]? = some p →
    getCell g p.1 p.2 = ((get_symbols s).getD [])[k]?) ∧
  (∀ s ∈ fleet, s.deployed = true →
    ∀ v ∈ (get_symbols s).getD [], escChar ∈ v.data) ∧
  (gaps = true → ∀ s ∈ fleet, s.deployed = true → ∀ r c, r < hh → c < ww →
    nearShip s.cell_coordinates r c →
    ∃ cell, getCell g r c = some cell ∧ Blocked cell) ∧
  (∀ (i j : Nat) (si sj : Ship), i ≠ j → fleet[i]? = some si →
    fleet[j]? = some sj → si.deployed = true → sj.deployed = true →
    ShipsDisjoint si sj) ∧
  (∀ r c, r < hh → c < ww →
    (∀ s ∈ fleet, s.deployed = true → (r, c) ∉ s.cell_coordinates) →
    getCell g r c = some symbol ∨ getCell g r c = some "x")

/-- Cells of a deployed ship are blocked, as a consequence of the exactness
and escape-character components of `Inv9`. -/
theorem inv9_cells_blocked {hh ww : Nat} {symbol : Cell} {gaps : Bool}
    {g : Grid} {fleet : Fleet} (hinv : Inv9 hh ww symbol gaps g fleet) :
    ∀ s ∈ fleet, s.deployed = true →
      ∀ p ∈ s.cell_coordinates, ∃ cell, getCell g p.1 p.2 = some cell ∧
        Blocked cell := by
  obtain ⟨hrect, hbounds, hexact, hesc, _, _, _⟩ := hinv
  intro s hs hdep p hp
  obtain ⟨k, hk, hkp⟩ := List.getElem_of_mem hp
  obtain ⟨hp1, hp2⟩ := hbounds s hs hdep p hp
  obtain ⟨cell, hcell⟩ := hrect.getCell_isSome hp1 hp2
  have hkq : s.cell_coordinates[k]? = some p := by
    rw [List.getElem?_eq_getElem hk, hkp]
  have hx := hexact s hs hdep k p hkq
  rw [hcell] at hx
  have hv : cell ∈ (get_symbols s).getD [] := List.getElem?_mem hx.symm
  exact ⟨cell, hcell, Or.inr (hesc s hs hdep cell hv)⟩

/-- The symbol list drawn for a freshly deployed ship: as long as the ship,
every string carrying the escape character. -/
theorem placed_symbols_esc {g : Grid} {ship : Ship} {symbol : Cell}
    {rs rs' : List Nat} {alignment : String} {coords : List Coord}
    {symbols_list : List Cell}
    (hsingle : cpu_deploy_single_ship g ship.size symbol rs =
      (.ok alignment coords, rs'))
    (hsym : get_symbols (deployShip ship alignment coords) = some symbols_list) :
    symbols_list.length = ship.size ∧ ∀ t ∈ symbols_list, escChar ∈ t.data := by
  obtain ⟨L, ar, ac, _, _, _, hcases⟩ := single_ship_ok hsingle
  have hal : (deployShip ship alignment coords).alignment = some "Horizontal"
      ∨ (deployShip ship alignment coords).alignment = some "Vertical"
      ∨ (deployShip ship alignment coords).size ≤ 1 := by
    have halfield := (deployShip_fields ship alignment coords).2.2.2
    have hsize := (deployShip_fields ship alignment coords).2.2.1
    rcases hcases with ⟨_, hone⟩ | ⟨hhv, _⟩
    · right; right; rw [hsize]; omega
    · rcases hhv with rfl | rfl
      · exact Or.inl halfield
      · exact Or.inr (Or.inl halfield)
  obtain ⟨syms0, hsym0, hlen0, hesc⟩ := get_symbols_deployed hal
  rw [hsym0] at hsym
  obtain rfl : syms0 = symbols_list := by simpa using hsym
  refine ⟨?_, hesc⟩
  rw [hlen0]
  exact (deployShip_fields ship alignment coords).2.2.1

/-- One-step preservation of `Inv9`. -/
theorem inv9_step {hh ww : Nat} {symbol : Cell} {gaps : Bool}
    {g gb g1 : Grid} {fleet : Fleet} {i : Nat} {ship : Ship}
    {rs rs' : List Nat} {alignment : String} {coords : List Coord}
    {symbols_list : List Cell}
    (hplain : PlainSymbol symbol) (hinv : Inv9 hh ww symbol gaps g fleet)
    (hget : fleet[i]? = some ship) (hdep0 : ship.deployed = false)
    (hsingle : cpu_deploy_single_ship g ship.size symbol rs =
      (.ok alignment coords, rs'))
    (hsym : get_symbols (deployShip ship alignment coords) = some symbols_list)
    (hbuf : (if gaps then map_allocate_empty_space_for_ship g coords "x"
      else (g, true)) = (gb, true))
    (hshow : map_show_symbols gb coords symbols_list = (g1, true)) :
    Inv9 hh ww symbol gaps g1
      (fleet.set i (deployShip ship alignment coords)) := by
  have hblocked := inv9_cells_blocked hinv
  obtain ⟨hrect, hbounds, hexact, hescinv, hnbhd, hdisj, hcompl⟩ := hinv
  have hfree := (placement_shape hsingle).2.2
  have hnodup := (placement_shape hsingle).2.1
  have hcbounds := placement_bounds hrect hsingle
  have hfree_not_blocked : ∀ p ∈ coords, ∀ cell,
      getCell g p.1 p.2 = some cell → ¬ Blocked cell := by
    intro p hp cell hcell hb
    obtain ⟨ch, hch, hcell'⟩ := hfree p hp
    rw [hcell] at hcell'
    obtain rfl : cell = String.mk [ch] := by simpa using hcell'
    exact placement_cell_not_blocked hplain hch hb
  have havoid_disj : ∀ s ∈ fleet, s.deployed = true →
      ∀ p ∈ coords, p ∉ s.cell_coordinates := by
    intro s hs hdep p hp hmem
    obtain ⟨cell, hcell, hb⟩ := hblocked s hs hdep p hmem
    exact hfree_not_blocked p hp cell hcell hb
  have havoid_near : gaps = true → ∀ s ∈ fleet, s.deployed = true →
      ∀ p ∈ coords, ¬ nearShip s.cell_coordinates p.1 p.2 := by
    intro hgaps s hs hdep p hp hnear
    obtain ⟨hlt1, hlt2⟩ := hcbounds p hp
    obtain ⟨cell, hcell, hb⟩ := hnbhd hgaps s hs hdep p.1 p.2 hlt1 hlt2 hnear
    exact hfree_not_blocked p hp cell hcell hb
  have hgb_rect : Rect hh ww gb := by
    by_cases hgaps : gaps
    · rw [if_pos hgaps] at hbuf
      have h1 : (map_allocate_empty_space_for_ship g coords "x").1 = gb :=
        congrArg Prod.fst hbuf
      rw [← h1]
      exact map_allocate_rect hrect
    · rw [if_neg hgaps] at hbuf
      have h1 : g = gb := congrArg Prod.fst hbuf
      rw [← h1]
      exact hrect
  have hgb_point : ∀ r c,
      getCell gb r c = if gaps = true ∧ nearShip coords r c ∧ r < hh ∧ c < ww
        then some "x" else getCell g r c := by
    intro r c
    by_cases hgaps : gaps
    · rw [if_pos hgaps] at hbuf
      have h1 : (map_allocate_empty_space_for_ship g coords "x").1 = gb :=
        congrArg Prod.fst hbuf
      have := (@map_allocate_spec hh ww g coords "x" hrect).2 r c
      rw [h1] at this
      rw [this]
      by_cases hcond : nearShip coords r c ∧ r < hh ∧ c < ww
      · rw [if_pos hcond, if_pos ⟨hgaps, hcond⟩]
      · rw [if_neg hcond, if_neg (fun hcon => hcond hcon.2)]
    · rw [if_neg hgaps] at hbuf
      have h1 : g = gb := congrArg Prod.fst hbuf
      rw [← h1]
      simp [hgaps]
  have hg1_rect : Rect hh ww g1 := map_show_symbols_rect hgb_rect hshow
  obtain ⟨hsyms_len, hsyms_esc⟩ := placed_symbols_esc hsingle hsym
  have hnew_cc : (deployShip ship alignment coords).cell_coordinates = coords :=
    (deployShip_fields ship alignment coords).2.1
  have hnew_dep : (deployShip ship alignment coords).deployed = true :=
    (deployShip_fields ship alignment coords).1
  have hilen : i < fleet.length := (List.getElem?_eq_some_iff.mp hget).1
  have hset_get : ∀ k (sk : Ship),
      (fleet.set i (deployShip ship alignment coords))[k]? = some sk →
      (k = i ∧ sk = deployShip ship alignment coords) ∨
      (k ≠ i ∧ fleet[k]? = some sk) := by
    intro k sk hk
    by_cases hki : k = i
    · subst hki
      rw [List.getElem?_set_eq_of_lt _ hilen] at hk
      exact Or.inl ⟨rfl, by simpa using hk.symm⟩
    · rw [List.getElem?_set_ne (fun hcon => hki hcon.symm)] at hk
      exact Or.inr ⟨hki, hk⟩
  -- a deployed ship of the old fleet survives into the updated fleet
  have hold_mem : ∀ s ∈ fleet, s.deployed = true →
      s ∈ fleet.set i (deployShip ship alignment coords) := by
    intro s hs hdep
    obtain ⟨k, hklt, hks⟩ := List.getElem_of_mem hs
    by_cases hki : k = i
    · subst hki
      have : s = ship := by
        have := List.getElem?_eq_getElem hklt
        rw [hks, hget] at this
        simpa using this.symm
      rw [this, hdep0] at hdep
      simp at hdep
    · have : (fleet.set i (deployShip ship alignment coords))[k]? = some s := by
        rw [List.getElem?_set_ne (fun hcon => hki hcon.symm)]
        rw [List.getElem?_eq_getElem hklt, hks]
      exact List.getElem?_mem this
  -- old ship cells keep their exact content
  have hold_cell_same : ∀ s ∈ fleet, s.deployed = true →
      ∀ p ∈ s.cell_coordinates, getCell g1 p.1 p.2 = getCell g p.1 p.2 := by
    intro s hs hdep p hp
    have hpnot : p ∉ coords := fun hc => havoid_disj s hs hdep p hc hp
    rw [map_show_symbols_untouched hshow p.1 p.2 hpnot]
    rw [hgb_point p.1 p.2]
    by_cases hgaps : gaps
    · have hnotnear : ¬ nearShip coords p.1 p.2 := by
        rintro ⟨q, hq, hnearq⟩
        apply havoid_near hgaps s hs hdep q hq
        exact ⟨p, hp, near_symm hnearq⟩
      rw [if_neg (fun hcon => hnotnear hcon.2.1)]
    · rw [if_neg (fun hcon => hgaps hcon.1)]
  refine ⟨hg1_rect, ?_, ?_, ?_, ?_, ?_, ?_⟩
  · -- bounds
    intro s hs hdep p hp
    rcases List.mem_or_eq_of_mem_set hs with hmem | rfl
    · exact hbounds s hmem hdep p hp
    · rw [hnew_cc] at hp
      exact hcbounds p hp
  · -- exact ship-cell contents
    intro s hs hdep k p hkp
    rcases List.mem_or_eq_of_mem_set hs with hmem | rfl
    · have hp : p ∈ s.cell_coordinates := List.getElem?_mem hkp
      rw [hold_cell_same s hmem hdep _ hp]
      exact hexact s hmem hdep k p hkp
    · rw [hsym]
      simp only [Option.getD_some]
      rw [hnew_cc] at hkp
      have hk' : k < coords.length := (List.getElem?_eq_some_iff.mp hkp).1
      have hcp : coords[k] = p := by
        have := List.getElem?_eq_getElem hk'
        rw [hkp] at this
        simpa using this.symm
      have := map_show_symbols_exact hshow hnodup k hk'
      rw [hcp] at this
      exact this
  · -- escape character in every rendered string
    intro s hs hdep v hv
    rcases List.mem_or_eq_of_mem_set hs with hmem | rfl
    · exact hescinv s hmem hdep v hv
    · rw [hsym] at hv
      simp only [Option.getD_some] at hv
      exact hsyms_esc v hv
  · -- gaps: blocked closed neighborhoods
    intro hgaps s hs hdep r c hr hc hnear
    rcases List.mem_or_eq_of_mem_set hs with hmem | rfl
    · by_cases hrc : (r, c) ∈ coords
      · obtain ⟨t, ht, hcell⟩ := map_show_symbols_mem hshow (r, c) hrc
        exact ⟨t, hcell, Or.inr (hsyms_esc t ht)⟩
      · rw [map_show_symbols_untouched hshow r c hrc]
        rw [hgb_point r c]
        by_cases hnearnew : nearShip coords r c
        · rw [if_pos ⟨hgaps, hnearnew, hr, hc⟩]
          exact ⟨"x", rfl, Or.inl rfl⟩
        · rw [if_neg (fun hcon => hnearnew hcon.2.1)]
          exact hnbhd hgaps s hmem hdep r c hr hc hnear
    · rw [hnew_cc] at hnear
      by_cases hrc : (r, c) ∈ coords
      · obtain ⟨t, ht, hcell⟩ := map_show_symbols_mem hshow (r, c) hrc
        exact ⟨t, hcell, Or.inr (hsyms_esc t ht)⟩
      · rw [map_show_symbols_untouched hshow r c hrc]
        rw [hgb_point r c, if_pos ⟨hgaps, hnear, hr, hc⟩]
        exact ⟨"x", rfl, Or.inl rfl⟩
  · -- pairwise disjointness
    intro i' j' si sj hne hgi hgj hdi hdj
    rcases hset_get i' si hgi with ⟨rfl, rfl⟩ | ⟨hii, hgi'⟩
    · rcases hset_get j' sj hgj with ⟨rfl, _⟩ | ⟨hjj, hgj'⟩
      · exact absurd rfl hne
      · intro p hp
        rw [hnew_cc] at hp
        exact havoid_disj sj (List.getElem?_mem hgj') hdj p hp
    · rcases hset_get j' sj hgj with ⟨rfl, rfl⟩ | ⟨hjj, hgj'⟩
      · intro p hp hpin
        rw [hnew_cc] at hpin
        exact havoid_disj si (List.getElem?_mem hgi') hdi p hpin hp
      · exact hdisj i' j' si sj hne hgi' hgj' hdi hdj
  · -- complement cells stay free or buffered
    intro r c hr hc hnotin
    have hrc_new : (r, c) ∉ coords := by
      have hmem : (fleet.set i (deployShip ship alignment coords))[i]? =
          some (deployShip ship alignment coords) :=
        List.getElem?_set_eq_of_lt _ hilen
      have := hnotin _ (List.getElem?_mem hmem) hnew_dep
      rwa [hnew_cc] at this
    have hold : getCell g r c = some symbol ∨ getCell g r c = some "x" := by
      apply hcompl r c hr hc
      intro s hs hdep
      exact hnotin s (hold_mem s hs hdep) hdep
    rw [map_show_symbols_untouched hshow r c hrc_new]
    rw [hgb_point r c]
    by_cases hcond : gaps = true ∧ nearShip coords r c ∧ r < hh ∧ c < ww
    · rw [if_pos hcond]
      exact Or.inr rfl
    · rw [if_neg hcond]
      exact hold

/-- Clearing the buffer marks at the end of a successful run turns an
`Inv9` state with a fully deployed fleet into the grid shape claim C9
describes. -/
theorem inv9_terminal {hh ww : Nat} {symbol : Cell} {gaps : Bool} {g : Grid}
    {fleet : Fleet} (hplain : PlainSymbol symbol)
    (hinv : Inv9 hh ww symbol gaps g fleet)
    (hall : ∀ s ∈ fleet, s.deployed = true) :
    GridShowsOnlyShips hh ww symbol (map_show_only_ships g "x" symbol)
      fleet := by
  obtain ⟨hrect, hbounds, hexact, hescinv, hnbhd, hdisj, hcompl⟩ := hinv
  have hrectG := map_show_only_ships_rect (x := "x") (d := symbol) hrect
  refine ⟨hall, ?_, ?_, ?_⟩
  · -- no buffer mark remains
    intro r c cell hcell
    obtain ⟨hr, hc⟩ := hrectG.getCell_bounds hcell
    obtain ⟨cell0, hcell0⟩ := hrect.getCell_isSome hr hc
    rw [map_show_only_ships_getCell hrect hcell0] at hcell
    obtain rfl : cell = (if cell0 = "x" then symbol else cell0) := by
      simpa using hcell.symm
    by_cases hx : cell0 = "x"
    · rw [if_pos hx]
      exact plain_symbol_ne_x hplain
    · rw [if_neg hx]
      exact hx
  · -- every ship cell still shows the ship's rendered symbol
    intro s hs k p hkp
    have hp : p ∈ s.cell_coordinates := List.getElem?_mem hkp
    obtain ⟨hr, hc⟩ := hbounds s hs (hall s hs) p hp
    obtain ⟨cell0, hcell0⟩ := hrect.getCell_isSome hr hc
    have hx := hexact s hs (hall s hs) k p hkp
    rw [hcell0] at hx
    have hv : cell0 ∈ (get_symbols s).getD [] := List.getElem?_mem hx.symm
    have hesc := hescinv s hs (hall s hs) cell0 hv
    have hne : cell0 ≠ "x" := blocked_of_esc hesc
    rw [map_show_only_ships_getCell hrect hcell0, if_neg hne]
    exact hx
  · -- all remaining cells show the free symbol
    intro r c hr hc hnot
    obtain ⟨cell0, hcell0⟩ := hrect.getCell_isSome hr hc
    have hold := hcompl r c hr hc (fun s hs _ => hnot s hs)
    rw [map_show_only_ships_getCell hrect hcell0]
    rcases hold with h1 | h1
    · rw [hcell0] at h1
      obtain rfl : cell0 = symbol := by simpa using h1
      by_cases hx : cell0 = "x"
      · rw [if_pos hx]
      · rw [if_neg hx]
    · rw [hcell0] at h1
      obtain rfl : cell0 = "x" := by simpa using h1
      rw [if_pos rfl]

/-- Running the deployment loop to success from an `Inv9` state produces
exactly the grid shape claim C9 describes. -/
theorem deploy_loop_inv9 {fuel : Nat} {hh ww : Nat} {symbol : Cell}
    {gaps : Bool} {g : Grid} {fleet : Fleet} {rs rs' : List Nat} {G : Grid}
    {F : Fleet} (hplain : PlainSymbol symbol)
    (hinv : Inv9 hh ww symbol gaps g fleet)
    (hrun : cpu_deploy_all_ships fuel g fleet gaps symbol rs = (.ok G F, rs')) :
    GridShowsOnlyShips hh ww symbol G F := by
  induction fuel generalizing g fleet rs with
  | zero => simp [cpu_deploy_all_ships] at hrun
  | succ fuel ih =>
    rw [cpu_deploy_all_ships] at hrun
    split at hrun
    · rename_i hsel
      obtain ⟨rfl, rfl⟩ : map_show_only_ships g "x" symbol = G ∧ fleet = F := by
        constructor
        · exact congrArg (fun x => LoopRes.okGrid x.1) hrun
        · exact congrArg (fun x => LoopRes.okFleet x.1) hrun
      exact inv9_terminal hplain hinv (select_none_iff.mp hsel)
    · rename_i i ship hsel
      split at hrun
      · simp at hrun
      · simp at hrun
      · rename_i alignment coords rs1 hsingle
        split at hrun
        · simp at hrun
        · rename_i symbols_list hsym
          split at hrun
          · simp at hrun
          · rename_i gb hbuf
            split at hrun
            · simp at hrun
            · rename_i g1 hshow
              obtain ⟨hget, hdep⟩ := select_spec hsel
              exact ih (inv9_step hplain hinv hget hdep hsingle hsym hbuf hshow)
                hrun

/-- C9 (amended): every successful run of the Fleet Deployment Loop started
on a fresh all-free grid and an all-undeployed fleet, with a free symbol
containing neither the ANSI escape character nor the letter x, returns a
grid with no buffer mark in which every deployed ship's cell holds that
ship's rendered body symbol and every other cell holds the free symbol. -/
theorem c9_grid_shows_only_ships {fuel hh ww : Nat} {symbol : Cell}
    {gaps : Bool} {G : Grid} {fleet F : Fleet} {rs rs' : List Nat}
    (hplain : PlainSymbol symbol) (hstart : AllUndeployed fleet)
    (hrun : cpu_deploy_all_ships fuel (create_map hh ww symbol) fleet gaps
      symbol rs = (.ok G F, rs')) :
    GridShowsOnlyShips hh ww symbol G F := by
  apply deploy_loop_inv9 hplain ?_ hrun
  refine ⟨create_map_rect hh ww symbol, ?_, ?_, ?_, ?_, ?_, ?_⟩
  · intro s hs hdep
    rw [hstart s hs] at hdep
    simp at hdep
  · intro s hs hdep
    rw [hstart s hs] at hdep
    simp at hdep
  · intro s hs hdep
    rw [hstart s hs] at hdep
    simp at hdep
  · intro _ s hs hdep
    rw [hstart s hs] at hdep
    simp at hdep
  · intro i j si sj hne hgi hgj hdi hdj
    rw [hstart si (List.getElem?_mem hgi)] at hdi
    simp at hdi
  · intro r c hr hc _
    exact Or.inl (create_map_getCell hr hc)

/-- Counterexample to C9 as stated: with the single-character free symbol
"x" on a fresh 1×4 grid, the second tugboat's buffer pass overwrites the
first tugboat's cell, so in the successful result the first ship's
coordinate (0,1) holds "x" — the free symbol — instead of the ship's
rendered body symbol. -/
theorem c9_counterexample :
    (cpu_deploy_all_ships 3 (create_map 1 4 "x")
      [Ship.create "T" 1, Ship.create "T" 1] true "x" [1, 1]).1.isOk = true ∧
    ¬ GridShowsOnlyShips 1 4 "x"
      (cpu_deploy_all_ships 3 (create_map 1 4 "x")
        [Ship.create "T" 1, Ship.create "T" 1] true "x" [1, 1]).1.okGrid
      (cpu_deploy_all_ships 3 (create_map 1 4 "x")
        [Ship.create "T" 1, Ship.create "T" 1] true "x" [1, 1]).1.okFleet := by
  refine ⟨by decide, ?_⟩
  intro hcon
  obtain ⟨_, _, hexact, _⟩ := hcon
  have h3 := hexact
    { name := "T", size := 1, cell_coordinates := [(0, 1)], sunk := false,
      color := some colorDarkYellow, alignment := some "Single",
      deployed := true }
    (by decide) 0 (0, 1) (by decide)
  revert h3
  decide

/-- Witness for C9 at a concrete input: two tugboats on a fresh 1×3 grid of
"?", gaps enabled, stream [0, 0]. -/
theorem c9_grid_shows_only_ships_witness :
    GridShowsOnlyShips 1 3 "?"
      (cpu_deploy_all_ships 3 (create_map 1 3 "?")
        [Ship.create "T" 1, Ship.create "T" 1] true "?" [0, 0]).1.okGrid
      (cpu_deploy_all_ships 3 (create_map 1 3 "?")
        [Ship.create "T" 1, Ship.create "T" 1] true "?" [0, 0]).1.okFleet :=
  @c9_grid_shows_only_ships 3 1 3 "?" true
    ((cpu_deploy_all_ships 3 (create_map 1 3 "?")
      [Ship.create "T" 1, Ship.create "T" 1] true "?" [0, 0]).1.okGrid)
    [Ship.create "T" 1, Ship.create "T" 1]
    ((cpu_deploy_all_ships 3 (create_map 1 3 "?")
      [Ship.create "T" 1, Ship.create "T" 1] true "?" [0, 0]).1.okFleet)
    [0, 0]
    ((cpu_deploy_all_ships 3 (create_map 1 3 "?")
      [Ship.create "T" 1, Ship.create "T" 1] true "?" [0, 0]).2)
    (by decide) (by decide) (by decide)

end Battleship
